import Mathlib

/-!
# Verification of `windows_link_reader` (shallow embedding)

This file embeds the algorithmic core of the `windows_link_reader` C
program in Lean 4 and proves (or refutes) the specified properties.

Conventions of the embedding:
* C byte buffers and UTF-16 code-unit buffers are `List Nat` (each element
  is one byte `< 256`, resp. one code unit `< 65536`).
* C text strings (`char*` holding path text) are `List Char`; a C `NULL`
  pointer is `Option.none`, the empty string is `[]`.  C strings have no
  interior NUL byte in the texts handled here, so a Lean list is faithful.
* Fallible C functions returning `NULL` on failure become `Option`.
* Filesystem existence (`path_exists`) and the live mount table are
  collaborator inputs; they are passed explicitly as a predicate
  `List Char → Bool` and a `List MountRec`.
-/

namespace WinLink

/-! ## Utf16Decoder (`src/lnk/lnk_io.c`, `lnk_utf16le_to_utf8`) -/

/-- UTF-8 bytes of a BMP code point, as emitted by the tail of the
conversion loop (1/2/3 bytes by magnitude). -/
def utf8EncodeBMP (wc : Nat) : List Nat :=
  if wc < 0x80 then [wc]
  else if wc < 0x800 then [0xC0 ||| (wc >>> 6), 0x80 ||| (wc &&& 0x3F)]
  else [0xE0 ||| (wc >>> 12), 0x80 ||| ((wc >>> 6) &&& 0x3F), 0x80 ||| (wc &&& 0x3F)]

/-- The 4-byte UTF-8 encoding of a supplementary code point, exactly the four
shift/mask expressions of the C code. -/
def utf8Encode4 (cp : Nat) : List Nat :=
  [0xF0 ||| (cp >>> 18), 0x80 ||| ((cp >>> 12) &&& 0x3F),
   0x80 ||| ((cp >>> 6) &&& 0x3F), 0x80 ||| (cp &&& 0x3F)]

/-- The 3-byte UTF-8 encoding of U+FFFD emitted for unpaired surrogates. -/
def replacementBytes : List Nat := [0xEF, 0xBF, 0xBD]

/-- The conversion loop of `lnk_utf16le_to_utf8`, over the code units that
survive the NUL / bound scan (`for (i = 0; i < len; i++)`). -/
def utf16Units : List Nat → List Nat
  | [] => []
  | [u] =>
    if (0xD800 ≤ u ∧ u ≤ 0xDBFF) ∨ (0xDC00 ≤ u ∧ u ≤ 0xDFFF) then replacementBytes
    else utf8EncodeBMP u
  | u :: u2 :: rest =>
    if 0xD800 ≤ u ∧ u ≤ 0xDBFF then
      if 0xDC00 ≤ u2 ∧ u2 ≤ 0xDFFF then
        utf8Encode4 (0x10000 + (((u - 0xD800) <<< 10) ||| (u2 - 0xDC00))) ++ utf16Units rest
      else replacementBytes ++ utf16Units (u2 :: rest)
    else if 0xDC00 ≤ u ∧ u ≤ 0xDFFF then replacementBytes ++ utf16Units (u2 :: rest)
    else utf8EncodeBMP u ++ utf16Units (u2 :: rest)

/-- The length scan of `lnk_utf16le_to_utf8`: code units up to the first
NUL unit or the `max_chars` safety bound, whichever comes first. -/
def decodedUnits (w : List Nat) (maxChars : Nat) : List Nat :=
  (w.take maxChars).takeWhile (· ≠ 0)

/-- C `lnk_utf16le_to_utf8(wstr, max_chars)`: UTF-16LE to UTF-8 (total). -/
def lnk_utf16le_to_utf8 (w : List Nat) (maxChars : Nat) : List Nat :=
  utf16Units (decodedUnits w maxChars)

end WinLink

namespace WinLink

/-! ## Proofs about the Utf16Decoder -/

theorem utf16Units_high_low (h l : Nat) (rest : List Nat)
    (hh1 : 0xD800 ≤ h) (hh2 : h ≤ 0xDBFF) (hl1 : 0xDC00 ≤ l) (hl2 : l ≤ 0xDFFF) :
    utf16Units (h :: l :: rest)
      = utf8Encode4 (0x10000 + (((h - 0xD800) <<< 10) ||| (l - 0xDC00))) ++ utf16Units rest := by
  simp [utf16Units, hh1, hh2, hl1, hl2]

theorem utf16Units_lone_high (h : Nat) (rest : List Nat)
    (hh1 : 0xD800 ≤ h) (hh2 : h ≤ 0xDBFF)
    (hnl : ∀ l, rest.head? = some l → ¬(0xDC00 ≤ l ∧ l ≤ 0xDFFF)) :
    utf16Units (h :: rest) = replacementBytes ++ utf16Units rest := by
  cases rest with
  | nil => simp [utf16Units, hh1, hh2, replacementBytes]
  | cons l rest2 =>
    have hno := hnl l rfl
    simp only [utf16Units, hh1, hh2, and_self, if_true]
    rw [if_neg hno]

theorem utf16Units_lone_low (l : Nat) (rest : List Nat)
    (hl1 : 0xDC00 ≤ l) (hl2 : l ≤ 0xDFFF) :
    utf16Units (l :: rest) = replacementBytes ++ utf16Units rest := by
  have hnh : ¬(0xD800 ≤ l ∧ l ≤ 0xDBFF) := by omega
  cases rest with
  | nil =>
    simp [utf16Units, hnh, hl1, hl2, replacementBytes]
  | cons u2 rest2 =>
    simp [utf16Units, hnh, hl1, hl2]

theorem utf8EncodeBMP_length_le (u : Nat) : (utf8EncodeBMP u).length ≤ 3 := by
  unfold utf8EncodeBMP
  split
  · simp
  · split <;> simp

theorem utf16Units_length_le : ∀ (units : List Nat),
    (utf16Units units).length ≤ 4 * units.length
  | [] => by simp [utf16Units]
  | [u] => by
    have hb := utf8EncodeBMP_length_le u
    unfold utf16Units
    split
    · simp [replacementBytes]
    · simp only [List.length_cons, List.length_nil]
      omega
  | u :: u2 :: rest => by
    have ih1 := utf16Units_length_le rest
    have ih2 := utf16Units_length_le (u2 :: rest)
    have hb := utf8EncodeBMP_length_le u
    unfold utf16Units
    split
    · split
      · simp only [List.length_append, utf8Encode4, List.length_cons, List.length_nil,
          List.length_cons] at *
        omega
      · simp only [List.length_append, replacementBytes, List.length_cons,
          List.length_nil] at *
        omega
    · split
      · simp only [List.length_append, replacementBytes, List.length_cons,
          List.length_nil] at *
        omega
      · simp only [List.length_append, List.length_cons] at *
        omega

/-- C1.  For every UTF-16LE input decoded by `lnk_utf16le_to_utf8`: a high
surrogate immediately followed by a low surrogate within the decoded bound
yields exactly the 4-byte UTF-8 encoding of
`0x10000 + ((high-0xD800)<<10 | (low-0xDC00))`; an isolated high surrogate
(end of decoded input or not followed by a low surrogate) and any low
surrogate reached by the loop yield exactly the 3-byte encoding of U+FFFD.
Decoding never fails: the function is total and its output is bounded by
4 bytes per decoded unit (the allocation bound of the C code). -/
theorem C1_utf16_surrogate_pairs :
    (∀ (w : List Nat) (maxChars h l : Nat) (rest : List Nat),
       decodedUnits w maxChars = h :: l :: rest →
       0xD800 ≤ h → h ≤ 0xDBFF → 0xDC00 ≤ l → l ≤ 0xDFFF →
       lnk_utf16le_to_utf8 w maxChars
         = utf8Encode4 (0x10000 + (((h - 0xD800) <<< 10) ||| (l - 0xDC00))) ++ utf16Units rest)
    ∧ (∀ (w : List Nat) (maxChars h : Nat) (rest : List Nat),
       decodedUnits w maxChars = h :: rest →
       0xD800 ≤ h → h ≤ 0xDBFF →
       (∀ l, rest.head? = some l → ¬(0xDC00 ≤ l ∧ l ≤ 0xDFFF)) →
       lnk_utf16le_to_utf8 w maxChars = replacementBytes ++ utf16Units rest)
    ∧ (∀ (w : List Nat) (maxChars l : Nat) (rest : List Nat),
       decodedUnits w maxChars = l :: rest →
       0xDC00 ≤ l → l ≤ 0xDFFF →
       lnk_utf16le_to_utf8 w maxChars = replacementBytes ++ utf16Units rest)
    ∧ (∀ (w : List Nat) (maxChars : Nat),
       (lnk_utf16le_to_utf8 w maxChars).length ≤ 4 * (decodedUnits w maxChars).length) := by
  refine ⟨?_, ?_, ?_, ?_⟩
  · intro w maxChars h l rest hdec hh1 hh2 hl1 hl2
    rw [lnk_utf16le_to_utf8, hdec, utf16Units_high_low h l rest hh1 hh2 hl1 hl2]
  · intro w maxChars h rest hdec hh1 hh2 hnl
    rw [lnk_utf16le_to_utf8, hdec, utf16Units_lone_high h rest hh1 hh2 hnl]
  · intro w maxChars l rest hdec hl1 hl2
    rw [lnk_utf16le_to_utf8, hdec, utf16Units_lone_low l rest hl1 hl2]
  · intro w maxChars
    exact utf16Units_length_le _

/-- Witness for C1: the pair (0xD801, 0xDC37) decodes to U+10437
(`F0 90 90 B7`). -/
theorem C1_utf16_surrogate_pairs_witness :
    lnk_utf16le_to_utf8 [0xD801, 0xDC37, 0, 0x41] 16 = [0xF0, 0x90, 0x90, 0xB7] := by
  have h := C1_utf16_surrogate_pairs.1 [0xD801, 0xDC37, 0, 0x41] 16 0xD801 0xDC37 []
    (by decide) (by decide) (by decide) (by decide) (by decide)
  rw [h]
  decide

end WinLink

namespace WinLink

/-! ## TargetPathBuilder (`src/lnk/lnk_target.c`)

Path text is `List Char` (decoded UTF-8 text of the C `char*` strings). -/

/-- C path-text strings. -/
abbrev Str := List Char

/-- A character counting as a Windows path separator in this module. -/
def isSepChar (c : Char) : Bool := c == '\\' || c == '/'

/-- C `isalpha` in the C locale. -/
def isAlphaC (c : Char) : Bool := ('A' ≤ c && c ≤ 'Z') || ('a' ≤ c && c ≤ 'z')

/-- C `tolower` in the C locale. -/
def toLowerC (c : Char) : Char :=
  if 'A' ≤ c ∧ c ≤ 'Z' then Char.ofNat (c.toNat + 32) else c

/-- C `looks_like_drive_path`: at least 3 chars, `<alpha>':'<sep>`. -/
def looks_like_drive_path : Str → Bool
  | a :: b :: c :: _ => isAlphaC a && b == ':' && isSepChar c
  | _ => false

/-- C `looks_like_drive_root`: exactly 2 chars, `<alpha>':'`. -/
def looks_like_drive_root : Str → Bool
  | [a, b] => isAlphaC a && b == ':'
  | _ => false

/-- C `looks_like_unc_path`: at least 5 chars beginning `\\` or `//`. -/
def looks_like_unc_path (p : Str) : Bool :=
  decide (5 ≤ p.length) &&
    (match p with
     | a :: b :: _ => (a == '\\' && b == '\\') || (a == '/' && b == '/')
     | _ => false)

/-- C `normalize_unc_root`: map `/` to `\`, then ensure exactly a leading
`\\` pair (`NULL` for a null/empty input). -/
def normalize_unc_root (s : Str) : Option Str :=
  if s = [] then none
  else
    let tmp := s.map (fun c => if c == '/' then '\\' else c)
    match tmp with
    | '\\' :: '\\' :: _ => some tmp
    | '\\' :: _ => some ('\\' :: tmp)
    | _ => some ('\\' :: '\\' :: tmp)

/-- C `starts_with_ci`: case-insensitive prefix test, walking the second
argument (a NUL on the first side can never match a path character). -/
def starts_with_ci : Str → Str → Bool
  | _, [] => true
  | [], _ :: _ => false
  | c :: s, p :: ps => toLowerC c == toLowerC p && starts_with_ci s ps

/-- The `nb >= ns && starts_with_ci(base + (nb - ns), suffix)` test of
`join_win_paths`: base ends with suffix, case-insensitively. -/
def ends_with_ci (base suf : Str) : Bool :=
  decide (suf.length ≤ base.length) && starts_with_ci (base.drop (base.length - suf.length)) suf

/-- Last character is a separator (`base[nb-1]`). -/
def lastIsSep (l : Str) : Bool :=
  match l.getLast? with
  | some c => isSepChar c
  | none => false

/-- First character is a separator (`suffix[0]`). -/
def headIsSep (l : Str) : Bool :=
  match l.head? with
  | some c => isSepChar c
  | none => false

/-- C `join_win_paths(base, suffix)`. -/
def join_win_paths (base suf : Str) : Option Str :=
  if base = [] then none
  else if suf = [] then some base
  else if ends_with_ci base suf then some base
  else if !lastIsSep base && !headIsSep suf then some (base ++ '\\' :: suf)
  else some (base ++ suf)

/-- The `LnkInfo` record of parsed fields (path-text view); `none` is a C
`NULL` pointer. -/
structure LnkInfo where
  localBasePath : Option Str := none
  localBasePathU : Option Str := none
  netName : Option Str := none
  netNameU : Option Str := none
  deviceName : Option Str := none
  deviceNameU : Option Str := none
  idListPath : Option Str := none
  commonPathSuffix : Option Str := none
  commonPathSuffixU : Option Str := none
  nameString : Option Str := none
  relativePath : Option Str := none
  workingDir : Option Str := none
  arguments : Option Str := none
  iconLocation : Option Str := none
  deriving Repr, DecidableEq

/-- C pointer selection `a ? a : b`. -/
def cFirst (a b : Option Str) : Option Str :=
  match a with
  | some x => some x
  | none => b

/-- The `(!candidate || (!looks_like_drive_path(candidate) &&
!looks_like_unc_path(candidate)))` test of the id-list override. -/
def notPathShapedO (o : Option Str) : Bool :=
  match o with
  | none => true
  | some c => !(looks_like_drive_path c || looks_like_unc_path c)

/-- C test `p && *p` (non-null and non-empty). -/
def nonEmptyO (o : Option Str) : Bool :=
  match o with
  | some s => !s.isEmpty
  | none => false

/-- C `build_best_target(li)`, step for step. -/
def build_best_target (li : LnkInfo) : Option Str :=
  let base_local := cFirst li.localBasePathU li.localBasePath
  let base_net_raw := cFirst li.netNameU li.netName
  let base_dev := cFirst li.deviceNameU li.deviceName
  let suf := cFirst li.commonPathSuffixU li.commonPathSuffix
  let base_net : Option Str :=
    match base_net_raw with
    | some s =>
      if s ≠ [] then
        match normalize_unc_root s with
        | some t => if t ≠ [] then some t else none
        | none => none
      else none
    | none => none
  let base1 : Option Str :=
    match base_net with
    | some bn =>
      if bn ≠ [] ∧ looks_like_unc_path bn then
        match base_local with
        | none => some bn
        | some b =>
          if b = [] ∨ looks_like_drive_path b ∨ looks_like_drive_root b then some bn
          else base_local
      else base_local
    | none => base_local
  let base2 : Option Str :=
    if !nonEmptyO base1 && nonEmptyO base_dev then base_dev else base1
  let cand0 : Option Str :=
    match base2, suf with
    | some b, some s => if b ≠ [] ∧ s ≠ [] then join_win_paths b s else none
    | _, _ => none
  let cand1 := if cand0 = none ∧ nonEmptyO base2 then base2 else cand0
  let cand2 :=
    if cand1 = none ∧ nonEmptyO li.workingDir ∧ nonEmptyO li.relativePath then
      match li.workingDir, li.relativePath with
      | some w, some r => some (w ++ '\\' :: r)
      | _, _ => none
    else cand1
  let cand3 := if cand2 = none ∧ nonEmptyO li.relativePath then li.relativePath else cand2
  let cand4 := if cand3 = none ∧ nonEmptyO suf then suf else cand3
  match li.idListPath with
  | some idp =>
    if !idp.isEmpty && (looks_like_drive_path idp || looks_like_unc_path idp)
        && notPathShapedO cand4 then
      some idp
    else cand4
  | none => cand4

/-- The join behaviour actually implemented: base alone when it already
ends with the suffix case-insensitively; otherwise insert one backslash
iff neither side already supplies a separator at the junction. -/
def joinSpec (b s : Str) : Str :=
  if ends_with_ci b s then b
  else if !lastIsSep b && !headIsSep s then b ++ '\\' :: s
  else b ++ s

theorem join_win_paths_eq (b s : Str) (hb : b ≠ []) (hs : s ≠ []) :
    join_win_paths b s = some (joinSpec b s) := by
  unfold join_win_paths joinSpec
  rw [if_neg hb, if_neg hs]
  split
  · rfl
  · split <;> rfl

/-- Does the string contain two adjacent path separators anywhere? -/
def hasDoubleSep : Str → Bool
  | a :: b :: r => (isSepChar a && isSepChar b) || hasDoubleSep (b :: r)
  | _ => false

end WinLink

namespace WinLink

/-- C2 (amended).  When a base path and a common path suffix are both
present and non-empty (and no network/device/id-list field interferes),
the builder returns the base alone if the base already ends with the
suffix case-insensitively; otherwise it concatenates base and suffix,
inserting exactly one backslash separator iff the base does not already
end with a separator and the suffix does not already start with one (when
both sides carry a separator, the doubled separator is kept as-is). -/
theorem C2_target_join (li : LnkInfo) (b s : Str)
    (h1 : li.localBasePathU = none) (h2 : li.localBasePath = some b) (hb : b ≠ [])
    (h3 : li.commonPathSuffixU = none) (h4 : li.commonPathSuffix = some s) (hs : s ≠ [])
    (h5 : li.netNameU = none) (h6 : li.netName = none) (h7 : li.idListPath = none) :
    build_best_target li = some (joinSpec b s) := by
  have hbe : b.isEmpty = false := by
    cases b
    · exact absurd rfl hb
    · rfl
  unfold build_best_target
  rw [h1, h2, h3, h4, h5, h6, h7]
  simp only [cFirst, nonEmptyO, hbe, Bool.not_false, Bool.not_true, Bool.false_and,
    Bool.and_false, Bool.false_eq_true, if_false]
  rw [if_pos (show b ≠ [] ∧ s ≠ [] from ⟨hb, hs⟩), join_win_paths_eq b s hb hs]
  simp

/-- Witness for C2 (this is also the spec's own example):
`local_base_path "C:\Users\me"` with `common_path_suffix
"Documents\file.txt"` yields `"C:\Users\me\Documents\file.txt"`. -/
theorem C2_target_join_witness :
    build_best_target
        { localBasePath := some "C:\\Users\\me".data,
          commonPathSuffix := some "Documents\\file.txt".data }
      = some "C:\\Users\\me\\Documents\\file.txt".data := by
  have h := C2_target_join
    { localBasePath := some "C:\\Users\\me".data,
      commonPathSuffix := some "Documents\\file.txt".data }
    "C:\\Users\\me".data "Documents\\file.txt".data
    rfl rfl (by decide) rfl rfl (by decide) rfl rfl rfl
  rw [h]
  decide

/-- Counterexample to C2 as stated: with base `"C:\Users\"` and suffix
`"\Doc"` (each containing no doubled separator) the builder emits
`"C:\Users\\Doc"`, which contains two adjacent separators at the
junction — not "exactly one backslash separator". -/
theorem C2_counterexample :
    build_best_target
        { localBasePath := some "C:\\Users\\".data,
          commonPathSuffix := some "\\Doc".data }
      = some "C:\\Users\\\\Doc".data
    ∧ hasDoubleSep "C:\\Users\\\\Doc".data = true
    ∧ hasDoubleSep "C:\\Users\\".data = false
    ∧ hasDoubleSep "\\Doc".data = false := by
  refine ⟨?_, by decide, by decide, by decide⟩
  decide

end WinLink

namespace WinLink

/-! ## UNC canonical form (`scripts/src/resolve/unc.c`, `src/util/fs.c`) -/

/-- C `normalize_backslashes`: in-place `'\' -> '/'`. -/
def normalize_backslashes (s : Str) : Str :=
  s.map (fun c => if c == '\\' then '/' else c)

/-- C `PATH_MAX` of the target platform. -/
def PATH_MAX : Nat := 4096

/-- Number of trailing `'/'` characters. -/
def trailingSlashCount (l : Str) : Nat :=
  (l.reverse.takeWhile (· == '/')).length

/-- The trailing-slash stripping loop of `normalize_unc`
(`while (n > 2 && buf[n-1] == '/') n--`): the loop removes the trailing
run of slashes but never shrinks the string below 2 characters. -/
def stripTrailSlashes (l : Str) : Str :=
  l.take (max 2 (l.length - trailingSlashCount l))

/-- C `normalize_unc(s)`: normalize separators, force a leading `//`,
truncate to the `PATH_MAX` buffer, strip trailing slashes. -/
def normalize_unc (s : Str) : Str :=
  let tmp := normalize_backslashes s
  let p := if tmp.take 2 = ['/', '/'] then tmp.drop 2 else tmp
  stripTrailSlashes ((['/', '/'] ++ p).take (PATH_MAX - 1))

/-- C `parse_unc_share(unc, server, server_sz, share, share_sz, rest)`:
split a canonical `"//server/share/rest"`; `none` is the C `return 0`. -/
def parse_unc_share (unc : Str) (server_sz share_sz : Nat) :
    Option (Str × Str × Str) :=
  match unc with
  | '/' :: '/' :: p =>
    let server := p.takeWhile (· != '/')
    if server.length = p.length then none
    else if server.length = 0 ∨ server_sz ≤ server.length then none
    else
      let p2 := p.drop (server.length + 1)
      let share := p2.takeWhile (· != '/')
      if share.length = 0 ∨ share_sz ≤ share.length then none
      else some (server, share, p2.drop share.length)
  | _ => none

theorem normalize_backslashes_id (l : Str) (h : ∀ c ∈ l, c ≠ '\\') :
    normalize_backslashes l = l := by
  induction l with
  | nil => rfl
  | cons a t ih =>
    have ha : a ≠ '\\' := h a (List.mem_cons_self a t)
    have : (a == '\\') = false := by simpa using ha
    simp only [normalize_backslashes, List.map_cons, this, if_false]
    have ht := ih (fun c hc => h c (List.mem_cons_of_mem a hc))
    simpa [normalize_backslashes] using ht

theorem takeWhile_ne_append (c : Char) (l₁ l₂ : Str) (h : ∀ a ∈ l₁, a ≠ c)
    (h2 : l₂.head? = some c ∨ l₂ = []) :
    (l₁ ++ l₂).takeWhile (· != c) = l₁ := by
  induction l₁ with
  | nil =>
    rcases h2 with h2 | h2
    · cases l₂ with
      | nil => simp at h2
      | cons a t =>
        simp only [List.head?_cons, Option.some_inj] at h2
        subst h2
        simp [List.takeWhile]
    · subst h2; simp [List.takeWhile]
  | cons a t ih =>
    have ha : a ≠ c := h a (List.mem_cons_self a t)
    have hne : (a != c) = true := by simpa using ha
    simp only [List.cons_append, List.takeWhile_cons, hne, if_true]
    rw [ih (fun x hx => h x (List.mem_cons_of_mem a hx))]

theorem trailingSlashCount_no_slash (l : Str) (c : Char)
    (hl : l.getLast? = some c) (hc : c ≠ '/') :
    trailingSlashCount l = 0 := by
  unfold trailingSlashCount
  have hrev : l.reverse.head? = some c := by
    rw [List.head?_reverse, hl]
  cases hrl : l.reverse with
  | nil => simp [hrl] at hrev
  | cons a t =>
    rw [hrl] at hrev
    simp only [List.head?_cons, Option.some_inj] at hrev
    have hane : (a == '/') = false := by
      rw [hrev]
      simpa using hc
    simp [List.takeWhile_cons, hane]

theorem stripTrailSlashes_no_slash (l : Str) (c : Char)
    (hl : l.getLast? = some c) (hc : c ≠ '/') :
    stripTrailSlashes l = l := by
  unfold stripTrailSlashes
  rw [trailingSlashCount_no_slash l c hl hc]
  exact List.take_of_length_le (by omega)

theorem stripTrailSlashes_append (r x : Str) (hx : 2 ≤ x.length)
    (hlast : ∃ c, x.getLast? = some c ∧ c ≠ '/') :
    ∃ q, q <+: r ∧ stripTrailSlashes (x ++ r) = x ++ q := by
  obtain ⟨c, hc1, hc2⟩ := hlast
  have hcnt : trailingSlashCount (x ++ r) ≤ r.length := by
    unfold trailingSlashCount
    rw [List.reverse_append, List.takeWhile_append]
    split
    · rw [List.length_append]
      have h0 : trailingSlashCount x = 0 := trailingSlashCount_no_slash x c hc1 hc2
      unfold trailingSlashCount at h0
      simp [h0]
    · calc ((r.reverse.takeWhile (· == '/')).length)
          ≤ r.reverse.length := (List.takeWhile_sublist _).length_le
      _ = r.length := List.length_reverse _
  refine ⟨r.take (r.length - trailingSlashCount (x ++ r)), List.take_prefix _ _, ?_⟩
  unfold stripTrailSlashes
  have harith : max 2 ((x ++ r).length - trailingSlashCount (x ++ r))
      = x.length + (r.length - trailingSlashCount (x ++ r)) := by
    rw [List.length_append]
    omega
  rw [harith, List.take_append]

/-- C6.  For every syntactically valid UNC string — separator `d` being
`\` or `/`, non-empty server and share free of separators and shorter
than the 256-byte buffers, an optional remainder starting with a
separator, overall length within `PATH_MAX` — `parse_unc_share` applied
to `normalize_unc` of the string recovers the server and the share. -/
theorem C6_normalize_parse_roundtrip (d : Char) (server share rest : Str)
    (hd : d = '\\' ∨ d = '/')
    (hserver : server ≠ []) (hshare : share ≠ [])
    (hsv : ∀ c ∈ server, c ≠ '/' ∧ c ≠ '\\')
    (hsh : ∀ c ∈ share, c ≠ '/' ∧ c ≠ '\\')
    (hsz1 : server.length < 256) (hsz2 : share.length < 256)
    (hrest : rest = [] ∨ ∃ c t, rest = c :: t ∧ (c = '/' ∨ c = '\\'))
    (hlen : server.length + share.length + rest.length + 3 ≤ 4095) :
    (parse_unc_share (normalize_unc (d :: d :: server ++ d :: share ++ rest)) 256 256).map
        (fun t => (t.1, t.2.1))
      = some (server, share) := by
  have hnbcons : ∀ (c : Char) (l : Str),
      normalize_backslashes (c :: l)
        = (if c == '\\' then '/' else c) :: normalize_backslashes l := by
    intro c l
    rfl
  have hnbapp : ∀ (l r : Str),
      normalize_backslashes (l ++ r) = normalize_backslashes l ++ normalize_backslashes r := by
    intro l r
    simp [normalize_backslashes]
  have hdmap : (if d == '\\' then '/' else d) = '/' := by
    rcases hd with h | h <;> subst h <;> rfl
  have hsvmap : normalize_backslashes server = server :=
    normalize_backslashes_id server (fun c hc => (hsv c hc).2)
  have hshmap : normalize_backslashes share = share :=
    normalize_backslashes_id share (fun c hc => (hsh c hc).2)
  set nrest := normalize_backslashes rest with hnrest
  have htmp : normalize_backslashes (d :: d :: server ++ d :: share ++ rest)
      = '/' :: '/' :: server ++ '/' :: share ++ nrest := by
    rw [show (d :: d :: server ++ d :: share ++ rest : Str)
        = d :: d :: (server ++ d :: (share ++ rest)) by simp]
    rw [hnbcons, hnbcons, hnbapp, hnbcons, hnbapp, hsvmap, hshmap, hdmap, ← hnrest]
    simp
  -- the normalized, truncated, trailing-slash-stripped canonical form
  have hlen2 : ('/' :: '/' :: server ++ '/' :: share ++ nrest).length ≤ 4095 := by
    have hnl : nrest.length = rest.length := by
      rw [hnrest]; simp [normalize_backslashes]
    simp only [List.cons_append, List.length_cons, List.length_append, hnl]
    omega
  have hcanon : normalize_unc (d :: d :: server ++ d :: share ++ rest)
      = stripTrailSlashes ('/' :: '/' :: server ++ '/' :: share ++ nrest) := by
    unfold normalize_unc
    rw [htmp]
    have h2 : List.take 2 ('/' :: '/' :: server ++ '/' :: share ++ nrest) = ['/', '/'] := by
      simp
    have h3 : List.drop 2 ('/' :: '/' :: server ++ '/' :: share ++ nrest)
        = server ++ '/' :: share ++ nrest := by
      simp
    simp only [h2, h3, if_pos]
    rw [show (['/', '/'] ++ (server ++ '/' :: share ++ nrest) : Str)
        = '/' :: '/' :: server ++ '/' :: share ++ nrest by simp]
    rw [List.take_of_length_le (by simpa [PATH_MAX] using hlen2)]
  -- split off the remainder with the strip lemma
  obtain ⟨ys, c, hys⟩ : ∃ ys c, share = ys ++ [c] := by
    obtain ⟨c, hc⟩ := Option.isSome_iff_exists.mp (List.getLast?_isSome.mpr hshare)
    obtain ⟨ys, hys⟩ := List.getLast?_eq_some_iff.mp hc
    exact ⟨ys, c, hys⟩
  have hcmem : c ∈ share := by rw [hys]; simp
  have hcne : c ≠ '/' := (hsh c hcmem).1
  have hxlast : (('/' :: '/' :: server ++ '/' :: share : Str)).getLast? = some c := by
    rw [hys]
    rw [show ('/' :: '/' :: server ++ '/' :: (ys ++ [c]) : Str)
        = ('/' :: '/' :: server ++ '/' :: ys) ++ [c] by simp]
    exact List.getLast?_concat _
  have hxlen : 2 ≤ ('/' :: '/' :: server ++ '/' :: share : Str).length := by
    simp
  obtain ⟨q, hq_pfx, hq⟩ := stripTrailSlashes_append nrest
    ('/' :: '/' :: server ++ '/' :: share) hxlen ⟨c, hxlast, hcne⟩
  have hsplit : ('/' :: '/' :: server ++ '/' :: share ++ nrest : Str)
      = ('/' :: '/' :: server ++ '/' :: share) ++ nrest := by simp
  -- the head of the leftover is a slash (or the leftover is empty)
  have hqhead : q.head? = some '/' ∨ q = [] := by
    rcases hrest with hr | ⟨c0, t0, hr, hc0⟩
    · right
      have : nrest = [] := by rw [hnrest, hr]; rfl
      rw [this] at hq_pfx
      exact List.prefix_nil.mp hq_pfx
    · have hnr : nrest = '/' :: normalize_backslashes t0 := by
        rw [hnrest, hr]
        simp only [normalize_backslashes, List.map_cons]
        rcases hc0 with h | h <;> subst h <;> rfl
      cases q with
      | nil => exact Or.inr rfl
      | cons a q' =>
        left
        rw [hnr] at hq_pfx
        obtain ⟨u, hu⟩ := hq_pfx
        have h2 := congrArg List.head? hu
        simp only [List.cons_append, List.head?_cons] at h2
        simp only [List.head?_cons]
        exact h2
  -- evaluate the parse on the canonical form
  rw [hcanon]
  rw [show ('/' :: '/' :: server ++ '/' :: share ++ nrest : Str)
      = ('/' :: '/' :: server ++ '/' :: share) ++ nrest by simp]
  rw [hq]
  rw [show (('/' :: '/' :: server ++ '/' :: share : Str)) ++ q
      = '/' :: '/' :: (server ++ '/' :: (share ++ q)) by simp]
  simp only [parse_unc_share]
  have hserver' : (server ++ '/' :: (share ++ q)).takeWhile (· != '/') = server := by
    have := takeWhile_ne_append '/' server ('/' :: (share ++ q))
      (fun a ha => (hsv a ha).1) (Or.inl rfl)
    simpa using this
  simp only [hserver']
  have hlen_ne : ¬(server.length = (server ++ '/' :: (share ++ q)).length) := by
    simp only [List.length_append, List.length_cons]
    omega
  rw [if_neg hlen_ne]
  have hsv0 : ¬(server.length = 0 ∨ 256 ≤ server.length) := by
    have hne0 : server.length ≠ 0 := by
      intro h0
      exact hserver (List.length_eq_zero.mp h0)
    omega
  rw [if_neg hsv0]
  have hdrop : (server ++ '/' :: (share ++ q)).drop (server.length + 1) = share ++ q := by
    rw [show (server ++ '/' :: (share ++ q) : Str) = (server ++ ['/']) ++ (share ++ q) by simp]
    exact List.drop_left' (by simp)
  simp only [hdrop]
  have hshare' : (share ++ q).takeWhile (· != '/') = share := by
    have := takeWhile_ne_append '/' share q (fun a ha => (hsh a ha).1)
      (by rcases hqhead with h | h
          · exact Or.inl h
          · exact Or.inr h)
    simpa using this
  simp only [hshare']
  have hsh0 : ¬(share.length = 0 ∨ 256 ≤ share.length) := by
    have hne0 : share.length ≠ 0 := by
      intro h0
      exact hshare (List.length_eq_zero.mp h0)
    omega
  rw [if_neg hsh0]
  simp

/-- Witness for C6: `"\\SRV\Share\sub"` normalizes to `"//SRV/Share/sub"`
and parses back into server `SRV`, share `Share`. -/
theorem C6_normalize_parse_roundtrip_witness :
    (parse_unc_share (normalize_unc "\\\\SRV\\Share\\sub".data) 256 256).map
        (fun t => (t.1, t.2.1))
      = some ("SRV".data, "Share".data) := by
  have h := C6_normalize_parse_roundtrip '\\' "SRV".data "Share".data "\\sub".data
    (Or.inl rfl) (by decide) (by decide) (by decide) (by decide) (by decide) (by decide)
    (Or.inr ⟨'\\', "sub".data, rfl, Or.inr rfl⟩) (by decide)
  exact h

end WinLink

namespace WinLink

/-! ## MappingTable (`scripts/src/resolve/mapping_table.c`)

The C `MapEntry` field holding the POSIX prefix is called `pfx` here.
`pathExistsF` is the `path_exists` collaborator (`stat` succeeding). -/

inductive MapType
  | drive
  | unc
  deriving Repr, DecidableEq

structure MapEntry where
  type : MapType
  drive : Char := 'A'
  unc : Option Str := none
  pfx : Option Str := none
  deriving Repr, DecidableEq

/-- One iteration of the best-rule loop of `try_map_unc_with_table`:
state is `(best, bestLen)` with `bestLen` initialised to 0. -/
def uncBestStep (uncPath : Str) (st : Option MapEntry × Nat) (e : MapEntry) :
    Option MapEntry × Nat :=
  match e.type, e.unc with
  | MapType.unc, some u =>
    if u = [] then st
    else if u.length ≤ st.2 then st
    else if u <+: uncPath then
      if uncPath.length = u.length ∨ uncPath.get? u.length = some '/' then (some e, u.length)
      else st
    else st
  | _, _ => st

/-- The whole best-rule loop. -/
def uncBestState (uncPath : Str) (maps : List MapEntry) : Option MapEntry × Nat :=
  maps.foldl (uncBestStep uncPath) (none, 0)

/-- C `try_map_unc_with_table(uncPath, maps)`. -/
def try_map_unc_with_table (uncPath : Str) (maps : List MapEntry)
    (pathExistsF : Str → Bool) : Option Str :=
  if uncPath.take 2 ≠ ['/', '/'] then none
  else
    match uncBestState uncPath maps with
    | (some e, bestLen) =>
      match e.pfx with
      | some q =>
        let cand := (q ++ uncPath.drop bestLen).take (PATH_MAX - 1)
        if pathExistsF cand then some cand else none
      | none => none
    | (none, _) => none

/-- What it means for the selected entry to fit the input with length `n`:
a UNC rule whose non-empty root is a prefix of the input, the next input
character being absent or `/`, the root length being exactly `n`. -/
def uncRuleFits (path : Str) (e : MapEntry) (n : Nat) : Prop :=
  e.type = MapType.unc ∧ ∀ u, e.unc = some u →
    u ≠ [] ∧ u <+: path ∧ (path.length = u.length ∨ path.get? u.length = some '/')
    ∧ u.length = n

theorem uncBestStep_mono (path : Str) (st : Option MapEntry × Nat) (e : MapEntry) :
    st.2 ≤ (uncBestStep path st e).2 := by
  rcases e with ⟨t, d, u, p⟩
  cases t with
  | drive => cases u <;> exact Nat.le_refl _
  | unc =>
    cases u with
    | none => exact Nat.le_refl _
    | some v =>
      simp only [uncBestStep]
      split_ifs <;> first | exact Nat.le_refl _ | omega

theorem uncBestFold_mono (path : Str) (l : List MapEntry) :
    ∀ (st : Option MapEntry × Nat), st.2 ≤ (l.foldl (uncBestStep path) st).2 := by
  induction l with
  | nil => intro st; exact Nat.le_refl _
  | cons a t ih =>
    intro st
    calc st.2 ≤ (uncBestStep path st a).2 := uncBestStep_mono path st a
    _ ≤ _ := ih (uncBestStep path st a)

theorem uncBestStep_ge (path : Str) (st : Option MapEntry × Nat) (e : MapEntry) (u : Str)
    (ht : e.type = MapType.unc) (hu : e.unc = some u) (hne : u ≠ [])
    (hpfx : u <+: path) (hbd : path.length = u.length ∨ path.get? u.length = some '/') :
    u.length ≤ (uncBestStep path st e).2 := by
  rcases e with ⟨t, d, uo, p⟩
  simp only at ht hu
  subst ht
  subst hu
  simp only [uncBestStep]
  rw [if_neg hne]
  split_ifs with h1
  · omega
  · exact Nat.le_refl _

theorem uncBest_inv (path : Str) (l : List MapEntry) :
    ∀ (st : Option MapEntry × Nat),
      (∀ e, st.1 = some e → uncRuleFits path e st.2) →
      ∀ e, (l.foldl (uncBestStep path) st).1 = some e →
        uncRuleFits path e (l.foldl (uncBestStep path) st).2 := by
  induction l with
  | nil => intro st h e he; exact h e he
  | cons a t ih =>
    intro st hst
    refine ih (uncBestStep path st a) ?_
    intro e he
    rcases a with ⟨ty, d, uo, p⟩
    cases ty <;> cases uo <;> simp only [uncBestStep] at he ⊢
    case unc.some u =>
      by_cases h1 : u = []
      · rw [if_pos h1] at he ⊢
        exact hst e he
      · rw [if_neg h1] at he ⊢
        by_cases h2 : u.length ≤ st.2
        · rw [if_pos h2] at he ⊢
          exact hst e he
        · rw [if_neg h2] at he ⊢
          by_cases h3 : u <+: path
          · rw [if_pos h3] at he ⊢
            by_cases h4 : path.length = u.length ∨ path.get? u.length = some '/'
            · rw [if_pos h4] at he ⊢
              simp only [Option.some_inj] at he
              subst he
              refine ⟨rfl, ?_⟩
              intro u' hu'
              simp only [Option.some_inj] at hu'
              subst hu'
              exact ⟨h1, h3, h4, rfl⟩
            · rw [if_neg h4] at he ⊢
              exact hst e he
          · rw [if_neg h3] at he ⊢
            exact hst e he
    all_goals exact hst e he

/-- The concrete two-rule table of the spec's example. -/
def mapsC3 : List MapEntry :=
  [⟨MapType.unc, 'A', some "//srv/share".data, some "/mnt/a".data⟩,
   ⟨MapType.unc, 'A', some "//srv/share/sub".data, some "/mnt/b".data⟩]

/-- C3.  `try_map_unc_with_table` selects the rule whose UNC root is the
longest prefix of the input whose following character is absent or `/`:
(1) every fitting rule's root length is at most the selected length;
(2) the selected entry fits with exactly the selected length;
(3) a rule for `//server/share` never matches `//server/shareX`;
(4,5) with rules `//srv/share -> /mnt/a` and `//srv/share/sub -> /mnt/b`,
input `//srv/share/sub/x.txt` resolves to `/mnt/b/x.txt` and
`//srv/share/other/x.txt` resolves to `/mnt/a/other/x.txt`. -/
theorem C3_unc_longest_match :
    (∀ (path : Str) (maps : List MapEntry) (e : MapEntry) (u : Str),
       e ∈ maps → e.type = MapType.unc → e.unc = some u → u ≠ [] →
       u <+: path → (path.length = u.length ∨ path.get? u.length = some '/') →
       u.length ≤ (uncBestState path maps).2)
    ∧ (∀ (path : Str) (maps : List MapEntry) (e : MapEntry),
       (uncBestState path maps).1 = some e →
       uncRuleFits path e (uncBestState path maps).2)
    ∧ try_map_unc_with_table "//server/shareX".data
        [⟨MapType.unc, 'A', some "//server/share".data, some "/mnt/a".data⟩]
        (fun _ => true) = none
    ∧ try_map_unc_with_table "//srv/share/sub/x.txt".data mapsC3 (fun _ => true)
        = some "/mnt/b/x.txt".data
    ∧ try_map_unc_with_table "//srv/share/other/x.txt".data mapsC3 (fun _ => true)
        = some "/mnt/a/other/x.txt".data := by
  refine ⟨?_, ?_, by decide, by decide, by decide⟩
  · intro path maps e u hmem ht hu hne hpfx hbd
    obtain ⟨s, t, rfl⟩ := List.append_of_mem hmem
    unfold uncBestState
    rw [List.foldl_append]
    simp only [List.foldl_cons]
    calc u.length ≤ (uncBestStep path (s.foldl (uncBestStep path) (none, 0)) e).2 :=
          uncBestStep_ge path _ e u ht hu hne hpfx hbd
    _ ≤ _ := uncBestFold_mono path t _
  · intro path maps e he
    exact uncBest_inv path maps (none, 0) (by intro e' he'; cases he') e he

/-- Witness for C3: on the example input the selected root length (15,
for `//srv/share/sub`) is at least the length of the fitting shorter rule
root `//srv/share` (11). -/
theorem C3_unc_longest_match_witness :
    ("//srv/share".data).length
      ≤ (uncBestState "//srv/share/sub/x.txt".data mapsC3).2 := by
  exact C3_unc_longest_match.1 "//srv/share/sub/x.txt".data mapsC3
    ⟨MapType.unc, 'A', some "//srv/share".data, some "/mnt/a".data⟩ "//srv/share".data
    (by decide) rfl rfl (by decide) (by decide) (by decide)

end WinLink

namespace WinLink

/-! ## MountScorer and CIFS mounts (`src/resolve/mounts.c`)

The live mount table is the collaborator input: each successfully
tokenized `/proc/mounts` line becomes one `MountRec` (the `fopen` /
`fgets` / `mounts_line_tokens` plumbing is I/O).  `ex` is the
`path_exists` collaborator; `user` / `home` are the resolved passwd user
name and home directory (`none` when unavailable, as in C where the
buffers stay empty). -/

structure MountRec where
  dev : Str
  mnt : Str
  fst : Str
  deriving Repr, DecidableEq

/-- C `score_fstype`. -/
def score_fstype (fst : Str) : Int :=
  if fst = "cifs".data ∨ fst = "smb3".data then 35
  else if fst = "ntfs".data ∨ fst = "ntfs3".data then 30
  else if fst = "exfat".data then 28
  else if fst = "vfat".data ∨ fst = "msdos".data then 22
  else 0

/-- C `score_mountpoint_prefix` (additive bonuses). -/
def score_mountpoint_pfx (mnt : Str) (user home : Option Str) : Int :=
  let s1 : Int := if "/run/media/".data <+: mnt then 50 else 0
  let s2 : Int := if "/media/".data <+: mnt then 40 else 0
  let s3 : Int := if "/mnt/".data <+: mnt then 25 else 0
  let s4 : Int :=
    match user with
    | some u =>
      if u ≠ [] then
        (if (("/run/media/".data ++ u ++ ['/']).take (PATH_MAX - 1)) <+: mnt
         then (25 : Int) else 0)
        + (if (("/media/".data ++ u ++ ['/']).take (PATH_MAX - 1)) <+: mnt
           then (20 : Int) else 0)
      else 0
    | none => 0
  let s5 : Int :=
    match home with
    | some h =>
      if h ≠ [] then
        if h <+: mnt ∧ (mnt.length = h.length ∨ mnt.get? h.length = some '/')
        then 10 else 0
      else 0
    | none => 0
  s1 + s2 + s3 + s4 + s5

/-- The `skip[]` array test of `try_map_drive_to_mounts_scored`. -/
def mountSkipped (mnt : Str) : Bool :=
  decide ("/proc".data <+: mnt) || decide ("/sys".data <+: mnt)
    || decide ("/dev".data <+: mnt) || decide ("/run/user".data <+: mnt)
    || decide ("/snap".data <+: mnt) || decide ("/var/lib/snapd".data <+: mnt)

/-- Total score of one mount record for a drive candidate. -/
def driveCandScore (m : MountRec) (user home : Option Str) : Int :=
  score_fstype m.fst + score_mountpoint_pfx m.mnt user home
    + ((m.mnt.length / 8 : Nat) : Int)

/-- Loop state of `try_map_drive_to_mounts_scored`:
`(bestPath, bestScore, secondBestScore)`, initially `("", -1, -1)`. -/
structure DriveScanState where
  bestPath : Str
  bestScore : Int
  secondBestScore : Int
  deriving Repr, DecidableEq

/-- One loop iteration of `try_map_drive_to_mounts_scored`. -/
def driveScanStep (core : Str) (ex : Str → Bool) (user home : Option Str)
    (st : DriveScanState) (m : MountRec) : DriveScanState :=
  if mountSkipped m.mnt then st
  else
    let candidate := (m.mnt ++ core).take (PATH_MAX - 1)
    if !ex candidate then st
    else
      let score := driveCandScore m user home
      if st.bestScore < score then ⟨candidate, score, st.bestScore⟩
      else if st.secondBestScore < score then ⟨st.bestPath, st.bestScore, score⟩
      else st

/-- The whole scoring loop over the mount table. -/
def driveScanState (winPath : Str) (mounts : List MountRec) (ex : Str → Bool)
    (user home : Option Str) : DriveScanState :=
  mounts.foldl (driveScanStep (winPath.drop 2) ex user home) ⟨[], -1, -1⟩

/-- C `try_map_drive_to_mounts_scored(winPath)` with the confidence gate. -/
def try_map_drive_to_mounts_scored (winPath : Str) (mounts : List MountRec)
    (ex : Str → Bool) (user home : Option Str) : Option Str :=
  if winPath.length < 3 then none
  else if ¬(winPath.get? 1 = some ':' ∧ winPath.get? 2 = some '/') then none
  else
    let st := driveScanState winPath mounts ex user home
    if st.bestScore < 30 then none
    else if st.bestScore - 3 ≤ st.secondBestScore then none
    else if 0 ≤ st.bestScore ∧ st.bestPath ≠ [] then some st.bestPath
    else none

theorem driveScanStep_mono (core : Str) (ex : Str → Bool) (user home : Option Str)
    (st : DriveScanState) (m : MountRec) :
    st.bestScore ≤ (driveScanStep core ex user home st m).bestScore := by
  simp only [driveScanStep]
  split_ifs with h1 h2 h3 h4
  · exact Int.le_refl _
  · exact Int.le_refl _
  · exact Int.le_of_lt h3
  · exact Int.le_refl _
  · exact Int.le_refl _

theorem driveScanFold_mono (core : Str) (ex : Str → Bool) (user home : Option Str)
    (l : List MountRec) :
    ∀ st : DriveScanState, st.bestScore ≤ (l.foldl (driveScanStep core ex user home) st).bestScore := by
  induction l with
  | nil => intro st; exact Int.le_refl _
  | cons a t ih =>
    intro st
    calc st.bestScore ≤ (driveScanStep core ex user home st a).bestScore :=
          driveScanStep_mono core ex user home st a
    _ ≤ _ := ih _

theorem driveScanStep_ge (core : Str) (ex : Str → Bool) (user home : Option Str)
    (st : DriveScanState) (m : MountRec)
    (hskip : mountSkipped m.mnt = false)
    (hex : ex ((m.mnt ++ core).take (PATH_MAX - 1)) = true) :
    driveCandScore m user home ≤ (driveScanStep core ex user home st m).bestScore := by
  simp only [driveScanStep]
  rw [hskip]
  simp only [Bool.false_eq_true, if_false, hex, Bool.not_true]
  split_ifs with h1 h2
  · show driveCandScore m user home ≤ driveCandScore m user home
    exact Int.le_refl _
  · show driveCandScore m user home ≤ st.bestScore
    omega
  · show driveCandScore m user home ≤ st.bestScore
    omega

end WinLink

namespace WinLink

/-- C4 (amended).  The scored drive mapper returns a candidate only if
the tracked best score passes the absolute threshold 30 AND exceeds the
tracked runner-up score by more than the margin 3; whenever the tracked
runner-up is within the margin of the best, it returns no match; and the
tracked best score dominates the score of every eligible (non-skipped,
existing) mount of the table.  (As stated, the claim is false: two
existing candidates other than the top two may score within the margin
of each other without suppressing the match — see the counterexample.) -/
theorem C4_mount_margin_gate :
    (∀ (winPath : Str) (mounts : List MountRec) (ex : Str → Bool)
       (user home : Option Str) (p : Str),
       try_map_drive_to_mounts_scored winPath mounts ex user home = some p →
       30 ≤ (driveScanState winPath mounts ex user home).bestScore
         ∧ (driveScanState winPath mounts ex user home).secondBestScore
             < (driveScanState winPath mounts ex user home).bestScore - 3)
    ∧ (∀ (winPath : Str) (mounts : List MountRec) (ex : Str → Bool)
       (user home : Option Str),
       (driveScanState winPath mounts ex user home).bestScore - 3
           ≤ (driveScanState winPath mounts ex user home).secondBestScore →
       try_map_drive_to_mounts_scored winPath mounts ex user home = none)
    ∧ (∀ (winPath : Str) (mounts : List MountRec) (ex : Str → Bool)
       (user home : Option Str) (m : MountRec),
       m ∈ mounts → mountSkipped m.mnt = false →
       ex ((m.mnt ++ winPath.drop 2).take (PATH_MAX - 1)) = true →
       driveCandScore m user home
         ≤ (driveScanState winPath mounts ex user home).bestScore) := by
  refine ⟨?_, ?_, ?_⟩
  · intro winPath mounts ex user home p h
    simp only [try_map_drive_to_mounts_scored] at h
    split_ifs at h with h1 h2 h3 h4 h5
    all_goals first
      | exact ⟨by omega, by omega⟩
      | exact Option.noConfusion h
  · intro winPath mounts ex user home h
    simp only [try_map_drive_to_mounts_scored]
    split_ifs with h1 h2 h3 h4 h5 <;> first | rfl | exact absurd h h4
  · intro winPath mounts ex user home m hmem hskip hex
    obtain ⟨s, t, rfl⟩ := List.append_of_mem hmem
    unfold driveScanState
    rw [List.foldl_append]
    simp only [List.foldl_cons]
    calc driveCandScore m user home
        ≤ (driveScanStep (winPath.drop 2) ex user home
            (s.foldl (driveScanStep (winPath.drop 2) ex user home) ⟨[], -1, -1⟩) m).bestScore :=
          driveScanStep_ge _ ex user home _ m hskip hex
    _ ≤ _ := driveScanFold_mono _ ex user home t _

/-- Witness for C4: with the two near-tied mounts alone (scores 55 and
53), the margin gate rejects the match. -/
theorem C4_mount_margin_gate_witness :
    try_map_drive_to_mounts_scored "Z:/x".data
      [⟨"/dev/sda1".data, "/mnt/x".data, "ntfs".data⟩,
       ⟨"/dev/sdb1".data, "/mnt/y".data, "exfat".data⟩]
      (fun _ => true) none none = none := by
  exact C4_mount_margin_gate.2.1 "Z:/x".data
    [⟨"/dev/sda1".data, "/mnt/x".data, "ntfs".data⟩,
     ⟨"/dev/sdb1".data, "/mnt/y".data, "exfat".data⟩]
    (fun _ => true) none none (by decide)

/-- The three-mount table of the C4 counterexample. -/
def mountsC4 : List MountRec :=
  [⟨"//nas/share".data, "/run/media/u".data, "cifs".data⟩,
   ⟨"/dev/sda1".data, "/mnt/x".data, "ntfs".data⟩,
   ⟨"/dev/sdb1".data, "/mnt/y".data, "exfat".data⟩]

/-- Counterexample to C4 as stated: the two lower-ranked mounts `/mnt/x`
(score 55) and `/mnt/y` (score 53) are distinct existing candidates whose
scores are within the margin 3 of each other, yet the function still
returns the top candidate instead of no match. -/
theorem C4_counterexample :
    try_map_drive_to_mounts_scored "Z:/x".data mountsC4 (fun _ => true) none none
      = some "/run/media/u/x".data
    ∧ mountSkipped "/mnt/x".data = false
    ∧ mountSkipped "/mnt/y".data = false
    ∧ driveCandScore ⟨"/dev/sda1".data, "/mnt/x".data, "ntfs".data⟩ none none = 55
    ∧ driveCandScore ⟨"/dev/sdb1".data, "/mnt/y".data, "exfat".data⟩ none none = 53
    ∧ ("/mnt/x/x".data : Str) ≠ "/mnt/y/x".data := by
  refine ⟨by decide, by decide, by decide, by decide, by decide, by decide⟩

end WinLink

namespace WinLink

/-- The mount-table loop of `try_map_unc_to_cifs_mounts`: network
filesystems only, exact comparison of the normalized device name, first
existing `mountpoint ++ rest` wins. -/
def cifsScan (want rest : Str) (ex : Str → Bool) : List MountRec → Option Str
  | [] => none
  | m :: ms =>
    if m.fst ≠ "cifs".data ∧ m.fst ≠ "smb3".data then cifsScan want rest ex ms
    else if normalize_unc m.dev ≠ want then cifsScan want rest ex ms
    else
      let candidate := (m.mnt ++ rest).take (PATH_MAX - 1)
      if ex candidate then some candidate else cifsScan want rest ex ms

/-- C `try_map_unc_to_cifs_mounts(uncPath)`. -/
def try_map_unc_to_cifs_mounts (uncPath : Str) (mounts : List MountRec)
    (ex : Str → Bool) : Option Str :=
  if uncPath.take 2 ≠ ['/', '/'] then none
  else
    match parse_unc_share uncPath 256 256 with
    | none => none
    | some (server, share, rest) =>
      let want := (('/' :: '/' :: server) ++ '/' :: share).take (PATH_MAX - 1)
      cifsScan want rest ex mounts

/-- C9 (amended).  The OS-level network-mount strategy considers only
`cifs`/`smb3` mounts, compares each mount's normalized UNC device name
**case-sensitively** against `//server/share`, and returns
`mountpoint ++ UNC remainder` only when that joined path exists; a mount
whose joined path does not exist is skipped — there is **no** fallback to
the mountpoint alone.  (As stated, the claim is false on both points —
see the counterexample.) -/
theorem C9_cifs_mount_matching :
    (∀ (want rest : Str) (ex : Str → Bool) (m : MountRec) (ms : List MountRec),
       m.fst ≠ "cifs".data → m.fst ≠ "smb3".data →
       cifsScan want rest ex (m :: ms) = cifsScan want rest ex ms)
    ∧ (∀ (want rest : Str) (ex : Str → Bool) (m : MountRec) (ms : List MountRec),
       normalize_unc m.dev ≠ want →
       cifsScan want rest ex (m :: ms) = cifsScan want rest ex ms)
    ∧ (∀ (want rest : Str) (ex : Str → Bool) (m : MountRec) (ms : List MountRec),
       (m.fst = "cifs".data ∨ m.fst = "smb3".data) →
       normalize_unc m.dev = want →
       ex ((m.mnt ++ rest).take (PATH_MAX - 1)) = true →
       cifsScan want rest ex (m :: ms) = some ((m.mnt ++ rest).take (PATH_MAX - 1)))
    ∧ (∀ (want rest : Str) (ex : Str → Bool) (m : MountRec) (ms : List MountRec),
       ex ((m.mnt ++ rest).take (PATH_MAX - 1)) = false →
       cifsScan want rest ex (m :: ms) = cifsScan want rest ex ms)
    ∧ (∀ (uncPath : Str) (mounts : List MountRec) (ex : Str → Bool)
         (server share rest : Str),
       uncPath.take 2 = ['/', '/'] →
       parse_unc_share uncPath 256 256 = some (server, share, rest) →
       try_map_unc_to_cifs_mounts uncPath mounts ex
         = cifsScan ((('/' :: '/' :: server) ++ '/' :: share).take (PATH_MAX - 1))
             rest ex mounts) := by
  refine ⟨?_, ?_, ?_, ?_, ?_⟩
  · intro want rest ex m ms hc hs
    simp only [cifsScan]
    rw [if_pos ⟨hc, hs⟩]
  · intro want rest ex m ms hne
    simp only [cifsScan]
    split_ifs <;> rfl
  · intro want rest ex m ms hfst hnorm hex
    simp only [cifsScan]
    have h1 : ¬(m.fst ≠ "cifs".data ∧ m.fst ≠ "smb3".data) := by
      rcases hfst with h | h <;> simp [h]
    rw [if_neg h1, if_neg (by simp [hnorm]), if_pos hex]
  · intro want rest ex m ms hex
    simp only [cifsScan]
    split_ifs with h1 h2 h3
    · rfl
    · rfl
    · simp [hex] at h3
    · rfl
  · intro uncPath mounts ex server share rest htake hparse
    simp only [try_map_unc_to_cifs_mounts]
    rw [if_neg (by simp [htake]), hparse]

/-- Witness for C9: a matching `cifs` mount with an existing joined path
is returned. -/
theorem C9_cifs_mount_matching_witness :
    cifsScan "//srv/share".data "/sub".data (fun _ => true)
      [⟨"//srv/share".data, "/mnt/s".data, "cifs".data⟩]
      = some "/mnt/s/sub".data := by
  have h := C9_cifs_mount_matching.2.2.1 "//srv/share".data "/sub".data (fun _ => true)
    ⟨"//srv/share".data, "/mnt/s".data, "cifs".data⟩ []
    (Or.inl rfl) (by decide) (by decide)
  rw [h]
  decide

/-- Counterexample to C9 as stated: (1) with a matching `cifs` mount at
`/mnt/s` for `//srv/share` and a target `//srv/share/sub` whose joined
remainder `/mnt/s/sub` does not exist while the mountpoint `/mnt/s`
does, the function returns no match instead of falling back to the
mountpoint; (2) with a device name differing only in letter case
(`//SRV/share` vs. the target's `//srv/share`), the function returns no
match instead of matching case-insensitively. -/
theorem C9_counterexample :
    try_map_unc_to_cifs_mounts "//srv/share/sub".data
        [⟨"//srv/share".data, "/mnt/s".data, "cifs".data⟩]
        (fun p => p == "/mnt/s".data) = none
    ∧ (fun p => p == "/mnt/s".data) "/mnt/s".data = true
    ∧ try_map_unc_to_cifs_mounts "//srv/share/x".data
        [⟨"//SRV/share".data, "/mnt/s".data, "cifs".data⟩]
        (fun _ => true) = none := by
  refine ⟨by decide, by decide, by decide⟩

end WinLink

namespace WinLink

/-! ## LinkCache (`src/resolve/cache_links.c`)

The persisted store is modelled as its list of text lines, each without
its trailing newline (`rstrip_newline` applied).  The xdg-path / mkdir /
tmp-file / `rename` plumbing is I/O; `rename` makes one `set` an atomic
map from old store contents to new store contents, which is what the
model captures.  A C `NULL` key/prefix argument behaves exactly like the
empty string (both hit the same guard), so both are modelled as `[]`. -/

/-- Shared line parsing of `cache_get_prefix_for_lnk` /
`cache_set_prefix_for_lnk`: skip comments and empty lines, split at the
first `'='` (`none` when there is none). -/
def parseLine (l : Str) : Option (Str × Str) :=
  if l = [] ∨ l.head? = some '#' then none
  else
    let k := l.takeWhile (· != '=')
    if k.length = l.length then none
    else some (k, l.drop (k.length + 1))

/-- The key under which a store line is read, if any. -/
def lineKeyOf (l : Str) : Option Str := (parseLine l).map Prod.fst

/-- The loop body of `cache_get_prefix_for_lnk`: a parsed line with the
right key and a non-empty value replaces the accumulator (last wins). -/
def cacheGetStep (key : Str) (acc : Option Str) (l : Str) : Option Str :=
  match parseLine l with
  | some (k, v) => if k = key ∧ v ≠ [] then some v else acc
  | none => acc

/-- C `cache_get_prefix_for_lnk`: single scan, last non-empty value for a
matching key wins. -/
def cache_get_prefix_for_lnk (store : List Str) (key : Str) : Option Str :=
  if key = [] then none
  else store.foldl (cacheGetStep key) none

/-- C `cache_set_prefix_for_lnk`: rewrite the whole store, replacing every
line whose key matches and appending the entry if no line matched. -/
def cache_set_prefix_for_lnk (store : List Str) (key pfx : Str) : List Str :=
  if key = [] ∨ pfx = [] then store
  else
    let rewritten := store.map (fun l =>
      if lineKeyOf l = some key then key ++ '=' :: pfx else l)
    if store.any (fun l => lineKeyOf l == some key) then rewritten
    else rewritten ++ [key ++ '=' :: pfx]

theorem parseLine_keyline (key p : Str) (hk : key ≠ []) (hke : '=' ∉ key)
    (hkh : key.head? ≠ some '#') :
    parseLine (key ++ '=' :: p) = some (key, p) := by
  unfold parseLine
  have hne : ¬(key ++ '=' :: p = [] ∨ (key ++ '=' :: p).head? = some '#') := by
    rintro (h | h)
    · exact hk (List.append_eq_nil.mp h).1
    · cases key with
      | nil => exact hk rfl
      | cons a t =>
        simp only [List.cons_append, List.head?_cons] at h
        exact hkh (by rw [List.head?_cons, h])
  rw [if_neg hne]
  have htw : (key ++ '=' :: p).takeWhile (· != '=') = key :=
    takeWhile_ne_append '=' key ('=' :: p) (fun a ha h => hke (h ▸ ha)) (Or.inl rfl)
  simp only [htw]
  have hlen : ¬(key.length = (key ++ '=' :: p).length) := by
    simp only [List.length_append, List.length_cons]
    omega
  rw [if_neg hlen]
  have hdrop : (key ++ '=' :: p).drop (key.length + 1) = p := by
    rw [show (key ++ '=' :: p : Str) = (key ++ ['=']) ++ p by simp]
    exact List.drop_left' (by simp)
  rw [hdrop]

theorem lineKeyOf_keyline (key p : Str) (hk : key ≠ []) (hke : '=' ∉ key)
    (hkh : key.head? ≠ some '#') :
    lineKeyOf (key ++ '=' :: p) = some key := by
  unfold lineKeyOf
  rw [parseLine_keyline key p hk hke hkh]
  rfl

/-- Rewriting matching lines in place preserves the per-key line count. -/
theorem countP_rewrite (store : List Str) (key p : Str) (hk : key ≠ [])
    (hke : '=' ∉ key) (hkh : key.head? ≠ some '#') :
    (store.map (fun l => if lineKeyOf l = some key then key ++ '=' :: p else l)).countP
        (fun l => lineKeyOf l == some key)
      = store.countP (fun l => lineKeyOf l == some key) := by
  induction store with
  | nil => rfl
  | cons a t ih =>
    simp only [List.map_cons, List.countP_cons]
    rw [ih]
    by_cases h : lineKeyOf a = some key
    · rw [if_pos h]
      have h1 : (lineKeyOf (key ++ '=' :: p) == some key) = true := by
        rw [lineKeyOf_keyline key p hk hke hkh]
        simp
      have h2 : (lineKeyOf a == some key) = true := by simp [h]
      rw [h1, h2]
    · rw [if_neg h]

theorem cache_set_countP (store : List Str) (key p : Str) (hk : key ≠ [])
    (hke : '=' ∉ key) (hkh : key.head? ≠ some '#') (hp : p ≠ [])
    (hdup : store.countP (fun l => lineKeyOf l == some key) ≤ 1) :
    (cache_set_prefix_for_lnk store key p).countP (fun l => lineKeyOf l == some key) = 1 := by
  unfold cache_set_prefix_for_lnk
  rw [if_neg (by simp [hk, hp])]
  by_cases hany : store.any (fun l => lineKeyOf l == some key) = true
  · simp only [hany, if_true]
    rw [countP_rewrite store key p hk hke hkh]
    have hpos : 0 < store.countP (fun l => lineKeyOf l == some key) := by
      rw [List.countP_pos]
      obtain ⟨l, hl1, hl2⟩ := List.any_eq_true.mp hany
      exact ⟨l, hl1, hl2⟩
    omega
  · simp only [hany, Bool.false_eq_true, if_false]
    rw [List.countP_append, countP_rewrite store key p hk hke hkh]
    have hzero : store.countP (fun l => lineKeyOf l == some key) = 0 := by
      by_contra hne
      have hpos : 0 < store.countP (fun l => lineKeyOf l == some key) := by omega
      rw [List.countP_pos] at hpos
      obtain ⟨l, hl1, hl2⟩ := hpos
      exact hany (List.any_eq_true.mpr ⟨l, hl1, hl2⟩)
    rw [hzero]
    have h1 : (lineKeyOf (key ++ '=' :: p) == some key) = true := by
      rw [lineKeyOf_keyline key p hk hke hkh]
      simp
    simp [h1]

/-- After a `set`, every line carrying the key is exactly `key=prefix`. -/
theorem cache_set_lines (store : List Str) (key p : Str) (hk : key ≠ [])
    (hke : '=' ∉ key) (hkh : key.head? ≠ some '#') (hp : p ≠ []) :
    ∀ l ∈ cache_set_prefix_for_lnk store key p,
      lineKeyOf l = some key → l = key ++ '=' :: p := by
  unfold cache_set_prefix_for_lnk
  rw [if_neg (by simp [hk, hp])]
  intro l hl hkey
  have hmap : ∀ x ∈ store.map (fun l =>
      if lineKeyOf l = some key then key ++ '=' :: p else l),
      lineKeyOf x = some key → x = key ++ '=' :: p := by
    intro x hx hxkey
    obtain ⟨x0, hx0, hfx⟩ := List.mem_map.mp hx
    by_cases h : lineKeyOf x0 = some key
    · rw [if_pos h] at hfx
      exact hfx.symm
    · rw [if_neg h] at hfx
      exact absurd (hfx ▸ hxkey) h
  split at hl
  · exact hmap l hl hkey
  · rcases List.mem_append.mp hl with h | h
    · exact hmap l h hkey
    · simpa using List.mem_singleton.mp h

theorem cacheGetStep_keyline (key p : Str) (acc : Option Str) (hk : key ≠ [])
    (hke : '=' ∉ key) (hkh : key.head? ≠ some '#') (hp : p ≠ []) :
    cacheGetStep key acc (key ++ '=' :: p) = some p := by
  unfold cacheGetStep
  rw [parseLine_keyline key p hk hke hkh]
  simp [hp]

theorem cacheGetStep_other (key : Str) (acc : Option Str) (l : Str)
    (h : lineKeyOf l ≠ some key) :
    cacheGetStep key acc l = acc := by
  unfold cacheGetStep
  cases hpl : parseLine l with
  | none => rfl
  | some kv =>
    have hne : kv.1 ≠ key := by
      intro hcon
      apply h
      unfold lineKeyOf
      rw [hpl]
      simp [hcon]
    rcases kv with ⟨k, v⟩
    simp only at hne
    show (if k = key ∧ v ≠ [] then some v else acc) = acc
    rw [if_neg (by simp [hne])]

/-- The read fold returns the prefix when every matching line is
`key=p` and at least one line matches. -/
theorem cache_get_fold (key p : Str) (hk : key ≠ []) (hke : '=' ∉ key)
    (hkh : key.head? ≠ some '#') (hp : p ≠ []) :
    ∀ (lines : List Str) (acc : Option Str),
      (∀ l ∈ lines, lineKeyOf l = some key → l = key ++ '=' :: p) →
      lines.foldl (cacheGetStep key) acc
        = if lines.any (fun l => lineKeyOf l == some key) then some p else acc := by
  intro lines
  induction lines with
  | nil => intro acc _; simp
  | cons a t ih =>
    intro acc hall
    simp only [List.foldl_cons, List.any_cons]
    by_cases h : lineKeyOf a = some key
    · have ha : a = key ++ '=' :: p := hall a (List.mem_cons_self a t) h
      subst ha
      rw [cacheGetStep_keyline key p acc hk hke hkh hp]
      rw [ih (some p) (fun l hl => hall l (List.mem_cons_of_mem _ hl))]
      have hbeq : (lineKeyOf (key ++ '=' :: p) == some key) = true := by
        rw [lineKeyOf_keyline key p hk hke hkh]
        simp
      simp only [hbeq, Bool.true_or, if_true]
      split <;> rfl
    · rw [cacheGetStep_other key acc a h]
      rw [ih acc (fun l hl => hall l (List.mem_cons_of_mem _ hl))]
      have hbeq : (lineKeyOf a == some key) = false := by
        simpa using h
      simp only [hbeq, Bool.false_or]

end WinLink

namespace WinLink

/-- C5 (amended).  For every key that is non-empty, contains no `'='`
and does not start with `'#'` (as the absolute shortcut paths used as
keys are), and every prior store holding **at most one** line for that
key, `set(k, p1)` followed by `set(k, p2)` leaves exactly one line for
`k`, that line is `k=p2`, and a subsequent `get(k)` returns `p2`.
(As stated over *every* prior store the claim is false: a store that
already holds duplicate lines for `k` keeps one rewritten line per
duplicate — see the counterexample.) -/
theorem C5_cache_set_last_wins (store : List Str) (key p1 p2 : Str)
    (hk : key ≠ []) (hke : '=' ∉ key) (hkh : key.head? ≠ some '#')
    (hp1 : p1 ≠ []) (hp2 : p2 ≠ [])
    (hdup : store.countP (fun l => lineKeyOf l == some key) ≤ 1) :
    (cache_set_prefix_for_lnk (cache_set_prefix_for_lnk store key p1) key p2).countP
        (fun l => lineKeyOf l == some key) = 1
    ∧ cache_get_prefix_for_lnk
        (cache_set_prefix_for_lnk (cache_set_prefix_for_lnk store key p1) key p2) key
        = some p2
    ∧ ∀ l ∈ cache_set_prefix_for_lnk (cache_set_prefix_for_lnk store key p1) key p2,
        lineKeyOf l = some key → l = key ++ '=' :: p2 := by
  have hc1 : (cache_set_prefix_for_lnk store key p1).countP
      (fun l => lineKeyOf l == some key) = 1 :=
    cache_set_countP store key p1 hk hke hkh hp1 hdup
  have hc2 : (cache_set_prefix_for_lnk (cache_set_prefix_for_lnk store key p1) key p2).countP
      (fun l => lineKeyOf l == some key) = 1 :=
    cache_set_countP _ key p2 hk hke hkh hp2 (by omega)
  have hlines : ∀ l ∈ cache_set_prefix_for_lnk (cache_set_prefix_for_lnk store key p1) key p2,
      lineKeyOf l = some key → l = key ++ '=' :: p2 :=
    cache_set_lines _ key p2 hk hke hkh hp2
  refine ⟨hc2, ?_, hlines⟩
  unfold cache_get_prefix_for_lnk
  rw [if_neg hk]
  rw [cache_get_fold key p2 hk hke hkh hp2 _ none hlines]
  have hany : (cache_set_prefix_for_lnk (cache_set_prefix_for_lnk store key p1) key p2).any
      (fun l => lineKeyOf l == some key) = true := by
    rw [List.any_eq_true]
    have hpos : 0 < (cache_set_prefix_for_lnk
        (cache_set_prefix_for_lnk store key p1) key p2).countP
        (fun l => lineKeyOf l == some key) := by omega
    rw [List.countP_pos] at hpos
    obtain ⟨l, h1, h2⟩ := hpos
    exact ⟨l, h1, h2⟩
  rw [hany]
  simp

/-- Witness for C5: from the empty store, `set(k,/mnt/x); set(k,/mnt/y)`
then `get(k)` returns `/mnt/y`. -/
theorem C5_cache_set_last_wins_witness :
    cache_get_prefix_for_lnk
        (cache_set_prefix_for_lnk (cache_set_prefix_for_lnk [] "k".data "/mnt/x".data)
          "k".data "/mnt/y".data) "k".data
      = some "/mnt/y".data :=
  (C5_cache_set_last_wins [] "k".data "/mnt/x".data "/mnt/y".data
    (by decide) (by decide) (by decide) (by decide) (by decide) (by decide)).2.1

/-- Counterexample to C5 as stated: a prior store already holding two
lines for `k` still holds **two** lines for `k` after
`set(k,/mnt/x); set(k,/mnt/y)` — each duplicate is rewritten in place,
so the store does not contain exactly one entry for `k`. -/
theorem C5_counterexample :
    cache_set_prefix_for_lnk
        (cache_set_prefix_for_lnk ["k=a".data, "k=b".data] "k".data "/mnt/x".data)
        "k".data "/mnt/y".data
      = ["k=/mnt/y".data, "k=/mnt/y".data]
    ∧ (cache_set_prefix_for_lnk
        (cache_set_prefix_for_lnk ["k=a".data, "k=b".data] "k".data "/mnt/x".data)
        "k".data "/mnt/y".data).countP (fun l => lineKeyOf l == some "k".data) = 2 := by
  refine ⟨by decide, by decide⟩

/-- C10.  `cache_set_prefix_for_lnk` with a null/empty key or a
null/empty prefix is a complete no-op: the guard returns before any
filesystem access, so the persisted store is left untouched. -/
theorem C10_cache_set_noop (store : List Str) (key pfx : Str)
    (h : key = [] ∨ pfx = []) :
    cache_set_prefix_for_lnk store key pfx = store := by
  unfold cache_set_prefix_for_lnk
  rw [if_pos h]

/-- Witness for C10: an empty key leaves the store unchanged. -/
theorem C10_cache_set_noop_witness :
    cache_set_prefix_for_lnk ["a=b".data] [] "/mnt/x".data = ["a=b".data] :=
  C10_cache_set_noop ["a=b".data] [] "/mnt/x".data (Or.inl rfl)

end WinLink

namespace WinLink

/-! ## LinkDecoder (`src/lnk/lnk_parse.c`, `src/lnk/lnk_io.c`)

The input file is a `ByteStream`: the byte list plus a cursor.  `fread`
of a fixed-size field is all-or-nothing (`readExact`); on a short read
the C stream has consumed what was left, which the failure cursor
reflects.  `fseek(SEEK_SET)` always succeeds and may point past the
end.  Fields extracted by `lnk_read_w_string` are already converted to
UTF-8 bytes, as in C; an ANSI `StringData` buffer is NUL-terminated in
C, so its observable string is the bytes before the first NUL. -/

structure ByteStream where
  data : List Nat
  pos : Nat
  deriving Repr, DecidableEq

/-- C `fread(&x, k, 1, f)`. -/
def readExact (st : ByteStream) (k : Nat) : Option (List Nat) × ByteStream :=
  if st.pos + k ≤ st.data.length then
    (some ((st.data.drop st.pos).take k), ⟨st.data, st.pos + k⟩)
  else (none, ⟨st.data, max st.pos st.data.length⟩)

/-- C `fseek(f, n, SEEK_SET)`. -/
def seekTo (st : ByteStream) (n : Nat) : ByteStream := ⟨st.data, n⟩

/-- Little-endian 16-bit value of two bytes. -/
def leU16 : List Nat → Nat
  | [a, b] => a + 256 * b
  | _ => 0

/-- Little-endian 32-bit value of four bytes. -/
def leU32 : List Nat → Nat
  | [a, b, c, d] => a + 256 * (b + 256 * (c + 256 * d))
  | _ => 0

/-- UTF-16 code units of a little-endian byte sequence (full pairs). -/
def leUnits : List Nat → List Nat
  | a :: b :: r => (a + 256 * b) :: leUnits r
  | _ => []

/-- C `lnk_read_c_string(f, cap)`: bytes until NUL or EOF, at most
`cap - 1` bytes stored; a terminating NUL is consumed, a cap-stop's is
not. -/
def lnk_read_c_string (st : ByteStream) (cap : Nat) : List Nat × ByteStream :=
  let avail := st.data.drop st.pos
  let body := avail.takeWhile (· ≠ 0)
  if cap - 1 ≤ body.length then
    (body.take (cap - 1), ⟨st.data, st.pos + (cap - 1)⟩)
  else if body.length < avail.length then
    (body, ⟨st.data, st.pos + body.length + 1⟩)
  else (body, ⟨st.data, st.pos + avail.length⟩)

/-- C `lnk_read_w_string(f, max_chars)`: UTF-16 units until NUL or EOF, at
most `max_chars - 1` units stored, then converted to UTF-8. -/
def lnk_read_w_string (st : ByteStream) (maxChars : Nat) : List Nat × ByteStream :=
  let avail := st.data.drop st.pos
  let us := leUnits avail
  let body := us.takeWhile (· ≠ 0)
  if maxChars - 1 ≤ body.length then
    (utf16Units (body.take (maxChars - 1)), ⟨st.data, st.pos + 2 * (maxChars - 1)⟩)
  else if body.length < us.length then
    (utf16Units body, ⟨st.data, st.pos + 2 * body.length + 2⟩)
  else (utf16Units body, ⟨st.data, st.pos + avail.length⟩)

/-- C `lnk_read_string_data(f, unicode)`: 16-bit count, then the payload;
a zero count yields the empty string, a short payload read yields NULL
(but the stream keeps whatever it consumed). -/
def lnk_read_string_data (st : ByteStream) (unicode : Bool) :
    Option (List Nat) × ByteStream :=
  match readExact st 2 with
  | (none, st') => (none, st')
  | (some cb, st1) =>
    let count := leU16 cb
    if count = 0 then (some [], st1)
    else if unicode then
      match readExact st1 (2 * count) with
      | (none, st') => (none, st')
      | (some bs, st2) => (some (lnk_utf16le_to_utf8 (leUnits bs) count), st2)
    else
      match readExact st1 count with
      | (none, st') => (none, st')
      | (some bs, st2) => (some (bs.takeWhile (· ≠ 0)), st2)

/-- The Shell Link CLSID `00021401-0000-0000-C000-000000000046`, as its
16 on-disk bytes. -/
def shellLinkCLSID : List Nat :=
  [0x01, 0x14, 0x02, 0x00, 0x00, 0x00, 0x00, 0x00,
   0xC0, 0x00, 0x00, 0x00, 0x00, 0x00, 0x00, 0x46]

/-! ### IdListPathExtractor (`extract_best_path_from_idlist`) -/

/-- Byte-level separator test (`'\\'` or `'/'`). -/
def isSepB (c : Nat) : Bool := c == 92 || c == 47

/-- Byte-level `isalpha` (C locale). -/
def isAlphaB (c : Nat) : Bool := (65 ≤ c && c ≤ 90) || (97 ≤ c && c ≤ 122)

/-- Byte-level `looks_like_drive_path` (static copy in `lnk_parse.c`). -/
def looksLikeDrivePathB : List Nat → Bool
  | a :: b :: c :: _ => isAlphaB a && b == 58 && isSepB c
  | _ => false

/-- Byte-level `looks_like_unc_path` (static copy in `lnk_parse.c`). -/
def looksLikeUncPathB (p : List Nat) : Bool :=
  decide (5 ≤ p.length) &&
    (match p with
     | a :: b :: _ => (a == 92 && b == 92) || (a == 47 && b == 47)
     | _ => false)

/-- The `in_seg` run-counting loop shared by both segment counters. -/
def segCountFold (l : List Nat) : Nat :=
  let st := l.foldl (fun (st : Nat × Bool) c =>
    if isSepB c then (if st.2 then (st.1 + 1, false) else st) else (st.1, true)) (0, false)
  if st.2 then st.1 + 1 else st.1

/-- C `count_drive_segments`. -/
def count_drive_segments (p : List Nat) : Nat :=
  if looksLikeDrivePathB p then segCountFold (p.drop 3) else 0

/-- C `count_unc_rest_segments`. -/
def count_unc_rest_segments (p : List Nat) : Nat :=
  if looksLikeUncPathB p then
    let s1 := p.dropWhile isSepB
    let s2 := s1.dropWhile (fun c => !isSepB c)
    if s2 = [] then 0
    else
      let s3 := s2.dropWhile isSepB
      let s4 := s3.dropWhile (fun c => !isSepB c)
      if s4 = [] then 0
      else segCountFold (s4.dropWhile isSepB)
  else 0

/-- C `score_idlist_candidate` (`none` is a NULL candidate). -/
def score_idlist_candidate (s : Option (List Nat)) : Int :=
  match s with
  | none => -1
  | some l =>
    if l = [] then -1
    else if looksLikeUncPathB l then
      (count_unc_rest_segments l : Int) * 100 + 50 + ((l.length / 8 : Nat) : Int)
    else if looksLikeDrivePathB l then
      (count_drive_segments l : Int) * 100 + 40 + ((l.length / 8 : Nat) : Int)
    else -1

/-- C `dup_c_string_bounded`: bounded extraction stopping at NUL or a
control byte other than tab. -/
def dup_c_string_bounded (buf : List Nat) (start cap : Nat) : Option (List Nat) :=
  if buf.length ≤ start ∨ cap = 0 then none
  else
    let s := ((buf.drop start).take cap).takeWhile
      (fun c => decide (c ≠ 0 ∧ (0x20 ≤ c ∨ c = 9)))
    if s = [] then none else some s

/-- C `dup_utf16le_string_bounded`: bounded UTF-16LE extraction converted
with `lnk_utf16le_to_utf8`. -/
def dup_utf16le_string_bounded (buf : List Nat) (start maxUnits : Nat) :
    Option (List Nat) :=
  if buf.length < start + 2 then none
  else
    let unitsAvail := (buf.length - start) / 2
    let mu := min maxUnits unitsAvail
    if mu = 0 then none
    else some (lnk_utf16le_to_utf8 ((leUnits (buf.drop start)).take mu) (mu + 1))

/-- Byte at index `i` (indices used by the scans stay in range). -/
def byteAt (buf : List Nat) (i : Nat) : Nat := buf.getD i 0

/-- ASCII drive-letter pattern `<alpha>':'<sep>` at offset `i`. -/
def asciiDriveAt (buf : List Nat) (i : Nat) : Bool :=
  isAlphaB (byteAt buf i) && byteAt buf (i + 1) == 58 && isSepB (byteAt buf (i + 2))

/-- ASCII UNC pattern `'\\' '\\'` at offset `i`. -/
def asciiUncAt (buf : List Nat) (i : Nat) : Bool :=
  byteAt buf i == 92 && byteAt buf (i + 1) == 92

/-- UTF-16LE drive-letter pattern at offset `i`. -/
def utf16DriveAt (buf : List Nat) (i : Nat) : Bool :=
  isAlphaB (byteAt buf i) && byteAt buf (i + 1) == 0
    && byteAt buf (i + 2) == 58 && byteAt buf (i + 3) == 0
    && isSepB (byteAt buf (i + 4)) && byteAt buf (i + 5) == 0

/-- UTF-16LE UNC pattern at offset `i`. -/
def utf16UncAt (buf : List Nat) (i : Nat) : Bool :=
  byteAt buf i == 92 && byteAt buf (i + 1) == 0
    && byteAt buf (i + 2) == 92 && byteAt buf (i + 3) == 0

/-- Keep the higher-scoring candidate (strictly; ties keep the first). -/
def idScanUpdate (best : Option (List Nat) × Int) (cand : Option (List Nat)) :
    Option (List Nat) × Int :=
  let sc := score_idlist_candidate cand
  if best.2 < sc then (cand, sc) else best

/-- One offset of the ASCII scan (drive pattern first, then UNC). -/
def idScan1Step (buf : List Nat) (st : Option (List Nat) × Int) (i : Nat) :
    Option (List Nat) × Int :=
  let st1 := if asciiDriveAt buf i then idScanUpdate st (dup_c_string_bounded buf i 4096) else st
  if asciiUncAt buf i then idScanUpdate st1 (dup_c_string_bounded buf i 4096) else st1

/-- One offset of the UTF-16LE scan. -/
def idScan2Step (buf : List Nat) (st : Option (List Nat) × Int) (i : Nat) :
    Option (List Nat) × Int :=
  let st1 := if utf16DriveAt buf i then idScanUpdate st (dup_utf16le_string_bounded buf i 4096) else st
  if utf16UncAt buf i then idScanUpdate st1 (dup_utf16le_string_bounded buf i 4096) else st1

/-- C `extract_best_path_from_idlist(buf, buflen)`. -/
def extract_best_path_from_idlist (buf : List Nat) : Option (List Nat) :=
  if buf.length < 4 then none
  else
    let st1 := (List.range (buf.length - 4)).foldl (idScan1Step buf) (none, -1)
    let st2 := (List.range (buf.length - 8)).foldl (idScan2Step buf) st1
    st2.1

end WinLink

namespace WinLink

/-! ### `parse_lnk` -/

/-- The parsed record (byte-level view of `LnkInfo`; string fields hold
the UTF-8 bytes the C code stores). -/
structure LnkFields where
  localBasePath : Option (List Nat) := none
  localBasePathU : Option (List Nat) := none
  netName : Option (List Nat) := none
  netNameU : Option (List Nat) := none
  deviceName : Option (List Nat) := none
  deviceNameU : Option (List Nat) := none
  idListPath : Option (List Nat) := none
  commonPathSuffix : Option (List Nat) := none
  commonPathSuffixU : Option (List Nat) := none
  nameString : Option (List Nat) := none
  relativePath : Option (List Nat) := none
  workingDir : Option (List Nat) := none
  arguments : Option (List Nat) := none
  iconLocation : Option (List Nat) := none
  deriving Repr, DecidableEq

/-- Step 2 of `parse_lnk`: the optional LinkTargetIDList.  A short read
of the 16-bit size or of the payload is fatal; the content itself is
only mined best-effort. -/
def parseIdList (linkFlags : Nat) (st : ByteStream) :
    Option (Option (List Nat) × ByteStream) :=
  if linkFlags &&& 0x01 = 0 then some (none, st)
  else
    match readExact st 2 with
    | (none, _) => none
    | (some szb, st1) =>
      match readExact st1 (leU16 szb) with
      | (none, _) => none
      | (some idbuf, st2) => some (extract_best_path_from_idlist idbuf, st2)

/-- The LinkInfo-section fields. -/
structure LinkInfoFields where
  localBasePath : Option (List Nat) := none
  localBasePathU : Option (List Nat) := none
  commonPathSuffix : Option (List Nat) := none
  commonPathSuffixU : Option (List Nat) := none
  netName : Option (List Nat) := none
  netNameU : Option (List Nat) := none
  deviceName : Option (List Nat) := none
  deviceNameU : Option (List Nat) := none
  deriving Repr, DecidableEq

/-- A `lnk_read_w_string` at an absolute seek target (the cursor after
such a read is irrelevant: the caller seeks again). -/
def readFieldW (data : List Nat) (atPos : Nat) : List Nat :=
  (lnk_read_w_string ⟨data, atPos⟩ 65535).1

/-- A `lnk_read_c_string` at an absolute seek target. -/
def readFieldC (data : List Nat) (atPos : Nat) : List Nat :=
  (lnk_read_c_string ⟨data, atPos⟩ (1 <<< 20)).1

/-- The CommonNetworkRelativeLink sub-structure: all failures here are
soft (fields stay absent).  Returns
`(netNameU, netName, deviceNameU, deviceName)`. -/
def parseCNRL (data : List Nat) (liStart liSize cnrlOff : Nat) :
    Option (List Nat) × Option (List Nat) × Option (List Nat) × Option (List Nat) :=
  let cnStart := liStart + cnrlOff
  match readExact ⟨data, cnStart⟩ 4 with
  | (none, _) => (none, none, none, none)
  | (some szb, st1) =>
    let cnSize := leU32 szb
    if ¬(0x14 ≤ cnSize ∧ cnSize ≤ liSize - cnrlOff) then (none, none, none, none)
    else
      match readExact st1 4 with
      | (none, _) => (none, none, none, none)
      | (some _, st2) =>
      match readExact st2 4 with
      | (none, _) => (none, none, none, none)
      | (some netb, st3) =>
      match readExact st3 4 with
      | (none, _) => (none, none, none, none)
      | (some devb, st4) =>
      match readExact st4 4 with
      | (none, _) => (none, none, none, none)
      | (some _, st5) =>
        let netOff := leU32 netb
        let devOff := leU32 devb
        let uoffs : Nat × Nat :=
          if 0x1C ≤ cnSize then
            match readExact st5 4 with
            | (none, st6) =>
              (0, match readExact st6 4 with
                  | (none, _) => 0
                  | (some b2, _) => leU32 b2)
            | (some b1, st6) =>
              (leU32 b1, match readExact st6 4 with
                  | (none, _) => 0
                  | (some b2, _) => leU32 b2)
          else (0, 0)
        let netOffU := uoffs.1
        let devOffU := uoffs.2
        let netNameU : Option (List Nat) :=
          if netOffU ≠ 0 ∧ netOffU < cnSize then some (readFieldW data (cnStart + netOffU))
          else none
        let netName : Option (List Nat) :=
          if (netNameU = none ∨ netNameU = some []) ∧ netOff ≠ 0 ∧ netOff < cnSize then
            some (readFieldC data (cnStart + netOff))
          else none
        let deviceNameU : Option (List Nat) :=
          if devOffU ≠ 0 ∧ devOffU < cnSize then some (readFieldW data (cnStart + devOffU))
          else none
        let deviceName : Option (List Nat) :=
          if (deviceNameU = none ∨ deviceNameU = some []) ∧ devOff ≠ 0 ∧ devOff < cnSize then
            some (readFieldC data (cnStart + devOff))
          else none
        (netNameU, netName, deviceNameU, deviceName)

/-- Step 3 of `parse_lnk`: the optional LinkInfo section.  The fixed
sub-header reads are fatal on a short read; every offset is validated
against the declared section size; the cursor is forced to the section
end afterwards. -/
def parseLinkInfo (linkFlags : Nat) (st : ByteStream) :
    Option (LinkInfoFields × ByteStream) :=
  if linkFlags &&& 0x02 = 0 then some ({}, st)
  else
    let liStart := st.pos
    match readExact st 4 with
    | (none, _) => none
    | (some szb, st1) =>
      let liSize := leU32 szb
      if liSize < 0x1C then none
      else
      match readExact st1 4 with
      | (none, _) => none
      | (some hszb, st2) =>
      let liHeaderSize := leU32 hszb
      match readExact st2 4 with
      | (none, _) => none
      | (some _, st3) =>
      match readExact st3 4 with
      | (none, _) => none
      | (some _, st4) =>
      match readExact st4 4 with
      | (none, _) => none
      | (some lbpb, st5) =>
      match readExact st5 4 with
      | (none, _) => none
      | (some cnrlb, st6) =>
      match readExact st6 4 with
      | (none, _) => none
      | (some cpsb, st7) =>
      let lbpOff := leU32 lbpb
      let cnrlOff := leU32 cnrlb
      let cpsOff := leU32 cpsb
      let uread : Option (Nat × Nat × ByteStream) :=
        if 0x24 ≤ liHeaderSize then
          match readExact st7 4 with
          | (none, _) => none
          | (some ub1, st8) =>
            match readExact st8 4 with
            | (none, _) => none
            | (some ub2, st9) => some (leU32 ub1, leU32 ub2, st9)
        else some (0, 0, st7)
      match uread with
      | none => none
      | some (lbpOffU, cpsOffU, _) =>
        let localBasePathU : Option (List Nat) :=
          if lbpOffU ≠ 0 ∧ lbpOffU < liSize then some (readFieldW st.data (liStart + lbpOffU))
          else none
        let localBasePath : Option (List Nat) :=
          if localBasePathU = none ∧ lbpOff ≠ 0 ∧ lbpOff < liSize then
            some (readFieldC st.data (liStart + lbpOff))
          else none
        let commonPathSuffixU : Option (List Nat) :=
          if cpsOffU ≠ 0 ∧ cpsOffU < liSize then some (readFieldW st.data (liStart + cpsOffU))
          else none
        let commonPathSuffix : Option (List Nat) :=
          if commonPathSuffixU = none ∧ cpsOff ≠ 0 ∧ cpsOff < liSize then
            some (readFieldC st.data (liStart + cpsOff))
          else none
        let cnrl : Option (List Nat) × Option (List Nat) × Option (List Nat) × Option (List Nat) :=
          if cnrlOff ≠ 0 ∧ cnrlOff < liSize then parseCNRL st.data liStart liSize cnrlOff
          else (none, none, none, none)
        some ({ localBasePath := localBasePath, localBasePathU := localBasePathU,
                commonPathSuffix := commonPathSuffix, commonPathSuffixU := commonPathSuffixU,
                netNameU := cnrl.1, netName := cnrl.2.1,
                deviceNameU := cnrl.2.2.1, deviceName := cnrl.2.2.2 },
              seekTo st (liStart + liSize))

/-- Step 5 of `parse_lnk`: the five independent StringData entries, in
order; a failed read leaves its field NULL but never fails the parse. -/
def parseStringData (linkFlags : Nat) (unicode : Bool) (st : ByteStream) :
    Option (List Nat) × Option (List Nat) × Option (List Nat)
      × Option (List Nat) × Option (List Nat) :=
  let r1 := if linkFlags &&& 0x04 ≠ 0 then lnk_read_string_data st unicode else (none, st)
  let r2 := if linkFlags &&& 0x08 ≠ 0 then lnk_read_string_data r1.2 unicode else (none, r1.2)
  let r3 := if linkFlags &&& 0x10 ≠ 0 then lnk_read_string_data r2.2 unicode else (none, r2.2)
  let r4 := if linkFlags &&& 0x20 ≠ 0 then lnk_read_string_data r3.2 unicode else (none, r3.2)
  let r5 := if linkFlags &&& 0x40 ≠ 0 then lnk_read_string_data r4.2 unicode else (none, r4.2)
  (r1.1, r2.1, r3.1, r4.1, r5.1)

/-- C `parse_lnk(f, out)`: `none` is the C `return 0` with no usable
record (the C code `memset`s the output to all-NULL before failing). -/
def parse_lnk (data : List Nat) : Option LnkFields :=
  match readExact ⟨data, 0⟩ 76 with
  | (none, _) => none
  | (some hdr, st1) =>
    if leU32 (hdr.take 4) ≠ 0x4C then none
    else if (hdr.drop 4).take 16 ≠ shellLinkCLSID then none
    else
      let linkFlags := leU32 ((hdr.drop 20).take 4)
      let unicode : Bool := (linkFlags &&& 0x80) != 0
      match parseIdList linkFlags st1 with
      | none => none
      | some (idlp, st2) =>
        match parseLinkInfo linkFlags st2 with
        | none => none
        | some (li, st3) =>
          let sd := parseStringData linkFlags unicode st3
          some { localBasePath := li.localBasePath, localBasePathU := li.localBasePathU,
                 netName := li.netName, netNameU := li.netNameU,
                 deviceName := li.deviceName, deviceNameU := li.deviceNameU,
                 idListPath := idlp,
                 commonPathSuffix := li.commonPathSuffix,
                 commonPathSuffixU := li.commonPathSuffixU,
                 nameString := sd.1, relativePath := sd.2.1, workingDir := sd.2.2.1,
                 arguments := sd.2.2.2.1, iconLocation := sd.2.2.2.2 }

end WinLink

namespace WinLink

/-- C7.  `parse_lnk` is fatal — and yields no record at all — whenever
the fixed 76-byte header cannot be read in full, the declared header
size differs from 0x4C, or the class identifier differs from the Shell
Link CLSID. -/
theorem C7_invalid_header (data : List Nat)
    (h : data.length < 76 ∨ leU32 (data.take 4) ≠ 0x4C
       ∨ (data.drop 4).take 16 ≠ shellLinkCLSID) :
    parse_lnk data = none := by
  unfold parse_lnk
  by_cases h76 : 76 ≤ data.length
  · have hre : readExact ⟨data, 0⟩ 76 = (some (data.take 76), ⟨data, 76⟩) := by
      unfold readExact
      rw [if_pos (show (0 : Nat) + 76 ≤ data.length by omega)]
      simp
    rw [hre]
    dsimp only
    have ht4 : (data.take 76).take 4 = data.take 4 := by
      rw [List.take_take]
      norm_num
    have hd4 : ((data.take 76).drop 4).take 16 = (data.drop 4).take 16 := by
      rw [List.drop_take, List.take_take]
      norm_num
    rcases h with h | h | h
    · omega
    · rw [if_pos (show leU32 ((data.take 76).take 4) ≠ 0x4C by rw [ht4]; exact h)]
    · by_cases hsz : leU32 ((data.take 76).take 4) ≠ 0x4C
      · rw [if_pos hsz]
      · rw [if_neg hsz,
          if_pos (show ((data.take 76).drop 4).take 16 ≠ shellLinkCLSID by
            rw [hd4]; exact h)]
  · have hre : readExact ⟨data, 0⟩ 76 = (none, ⟨data, max 0 data.length⟩) := by
      unfold readExact
      rw [if_neg (show ¬((0 : Nat) + 76 ≤ data.length) by omega)]
    rw [hre]

/-- Witness for C7: a 76-byte header whose declared size is 0 is
rejected with no record. -/
theorem C7_invalid_header_witness : parse_lnk (List.replicate 76 0) = none :=
  C7_invalid_header (List.replicate 76 0) (Or.inr (Or.inl (by decide)))

/-- The little-endian bytes of a 16-bit value. -/
def le16 (n : Nat) : List Nat := [n % 256, n / 256 % 256]

/-- The little-endian bytes of a 32-bit value. -/
def le32 (n : Nat) : List Nat :=
  [n % 256, n / 256 % 256, n / 65536 % 256, n / 16777216 % 256]

/-- A well-formed 76-byte Shell Link header with the given LinkFlags. -/
def mkHeader (flags : Nat) : List Nat :=
  [0x4C, 0, 0, 0] ++ shellLinkCLSID ++ le32 flags ++ List.replicate 52 0

theorem mkHeader_length (flags : Nat) : (mkHeader flags).length = 76 := by
  simp [mkHeader, shellLinkCLSID, le32]

/-- C8.  With the "has target id-list" flag set (and no LinkInfo
section), the decoder reads a 16-bit length, then that many raw bytes,
hands them to `extract_best_path_from_idlist`, and the parse succeeds
for **every** possible ID-list content `b` — the extracted
`idListPath` is exactly the extractor's best-effort result (possibly
absent), and unusable content never fails the parse. -/
theorem C8_idlist_never_fatal (flags : Nat) (b tail : List Nat)
    (hf1 : flags &&& 0x01 ≠ 0) (hf2 : flags &&& 0x02 = 0)
    (hfb : flags < 4294967296) (hlen : b.length < 65536) :
    parse_lnk (mkHeader flags ++ (le16 b.length ++ (b ++ tail))) ≠ none
    ∧ (parse_lnk (mkHeader flags ++ (le16 b.length ++ (b ++ tail)))).map
        LnkFields.idListPath
      = some (extract_best_path_from_idlist b) := by
  have hmkl : (mkHeader flags).length = 76 := mkHeader_length flags
  set data := mkHeader flags ++ (le16 b.length ++ (b ++ tail)) with hdata
  have hdl : data.length = 78 + b.length + tail.length := by
    rw [hdata]
    simp [hmkl, le16]
    omega
  have h1 : readExact ⟨data, 0⟩ 76 = (some (mkHeader flags), ⟨data, 76⟩) := by
    unfold readExact
    rw [if_pos (show (0 : Nat) + 76 ≤ data.length by omega)]
    simp only [List.drop_zero]
    rw [hdata, List.take_left' hmkl]
  have h2 : leU32 ((mkHeader flags).take 4) = 0x4C := by
    simp [mkHeader, leU32]
  have h3 : ((mkHeader flags).drop 4).take 16 = shellLinkCLSID := by
    rw [show (mkHeader flags).drop 4 = shellLinkCLSID ++ (le32 flags ++ List.replicate 52 0) by
      simp [mkHeader]]
    rw [List.take_left' (by rfl)]
  have h4 : leU32 (((mkHeader flags).drop 20).take 4) = flags := by
    rw [show (mkHeader flags).drop 20 = le32 flags ++ List.replicate 52 0 by
      simp [mkHeader, shellLinkCLSID]]
    rw [List.take_left' (by simp [le32])]
    simp only [le32, leU32]
    omega
  have h5 : data.drop 76 = le16 b.length ++ (b ++ tail) := by
    rw [hdata]
    exact List.drop_left' hmkl
  have h6 : readExact ⟨data, 76⟩ 2 = (some (le16 b.length), ⟨data, 78⟩) := by
    unfold readExact
    rw [if_pos (show (76 : Nat) + 2 ≤ data.length by omega)]
    rw [h5, List.take_left' (by simp [le16])]
  have h7 : leU16 (le16 b.length) = b.length := by
    simp only [le16, leU16]
    omega
  have h8 : readExact ⟨data, 78⟩ b.length = (some b, ⟨data, 78 + b.length⟩) := by
    unfold readExact
    rw [if_pos (show (78 : Nat) + b.length ≤ data.length by omega)]
    have hd78 : data.drop 78 = b ++ tail := by
      rw [show (78 : Nat) = 76 + 2 by rfl, ← List.drop_drop, h5, List.drop_left' (by simp [le16])]
    rw [hd78, List.take_left' rfl]
  have hid : parseIdList flags ⟨data, 76⟩
      = some (extract_best_path_from_idlist b, ⟨data, 78 + b.length⟩) := by
    unfold parseIdList
    rw [if_neg hf1, h6]
    dsimp only
    rw [h7, h8]
  have hli : parseLinkInfo flags ⟨data, 78 + b.length⟩
      = some ({}, ⟨data, 78 + b.length⟩) := by
    unfold parseLinkInfo
    rw [if_pos hf2]
  have hmain : parse_lnk data
      = some { (({} : LnkFields)) with
               idListPath := extract_best_path_from_idlist b,
               nameString := (parseStringData flags ((flags &&& 0x80) != 0)
                 ⟨data, 78 + b.length⟩).1,
               relativePath := (parseStringData flags ((flags &&& 0x80) != 0)
                 ⟨data, 78 + b.length⟩).2.1,
               workingDir := (parseStringData flags ((flags &&& 0x80) != 0)
                 ⟨data, 78 + b.length⟩).2.2.1,
               arguments := (parseStringData flags ((flags &&& 0x80) != 0)
                 ⟨data, 78 + b.length⟩).2.2.2.1,
               iconLocation := (parseStringData flags ((flags &&& 0x80) != 0)
                 ⟨data, 78 + b.length⟩).2.2.2.2 } := by
    unfold parse_lnk
    rw [h1]
    dsimp only
    rw [if_neg (by simp [h2]), if_neg (by simp [h3])]
    simp only [h4]
    rw [hid]
    dsimp only
    rw [hli]
  constructor
  · rw [hmain]
    exact Option.noConfusion
  · rw [hmain]
    rfl

/-- Witness for C8: a shortcut whose ID-list is 4 junk bytes still
parses, with no extracted path. -/
theorem C8_idlist_never_fatal_witness :
    parse_lnk (mkHeader 1 ++ (le16 4 ++ ([0xFF, 0xFE, 0xFD, 0xFC] ++ []))) ≠ none
    ∧ (parse_lnk (mkHeader 1 ++ (le16 4 ++ ([0xFF, 0xFE, 0xFD, 0xFC] ++ [])))).map
        LnkFields.idListPath
      = some (extract_best_path_from_idlist [0xFF, 0xFE, 0xFD, 0xFC]) := by
  have h := C8_idlist_never_fatal 1 [0xFF, 0xFE, 0xFD, 0xFC] []
    (by decide) (by decide) (by decide) (by decide)
  have hl : ([0xFF, 0xFE, 0xFD, 0xFC] : List Nat).length = 4 := rfl
  constructor
  · exact hl ▸ h.1
  · exact hl ▸ h.2

end WinLink
